import Mathlib

/-!
Verification development for the create-velocity-astro template composition
engine: the dependency resolver over the component registry
(src/registry/resolver.ts), the overlay composition pipeline (src/scaffold.ts)
and the route-table mutation engine (src/features/pages.ts), together with
the page-name sanitizer (src/prompts.ts).

Strings are modelled as Lean `String` (lists of characters); the working
tree is modelled as an association list from file paths to file contents.
Regular-expression scans from the source are modelled by direct character
scans, noted at each definition.
-/

set_option maxRecDepth 100000

/-! ## Character / string helpers -/

/-- The left and right brace characters (written via code points). -/
def lbrace : Char := Char.ofNat 123

def rbrace : Char := Char.ofNat 125

/-- `leadsWith pat l` is true when `pat` is an initial segment of `l`. -/
def leadsWith : List Char → List Char → Bool
  | [], _ => true
  | _ :: _, [] => false
  | a :: as, b :: bs => a = b && leadsWith as bs

/-- Index of the first occurrence of `pat` inside `hay` (JS `String.indexOf`). -/
def findSub? (pat : List Char) : List Char → Option Nat
  | [] => if leadsWith pat [] then some 0 else Option.none
  | c :: cs =>
    if leadsWith pat (c :: cs) then some 0
    else (findSub? pat cs).map (· + 1)

/-- Index of the last occurrence of `pat` inside `hay` (JS `String.lastIndexOf`). -/
def findSubRev? (pat : List Char) : List Char → Option Nat
  | [] => if leadsWith pat [] then some 0 else Option.none
  | c :: cs =>
    match findSubRev? pat cs with
    | some i => some (i + 1)
    | Option.none => if leadsWith pat (c :: cs) then some 0 else Option.none

/-- Number of positions at which `pat` occurs inside `hay`. -/
def countOcc (pat : List Char) : List Char → Nat
  | [] => 0
  | c :: cs => (if leadsWith pat (c :: cs) then 1 else 0) + countOcc pat cs

/-- JS `String.includes`: substring test. -/
def hasSub (hay pat : String) : Bool := (findSub? pat.data hay.data).isSome

/-- Count of occurrences of `pat` in `hay`, on strings. -/
def subCount (hay pat : String) : Nat := countOcc pat.data hay.data

/-- Insert `ins` into `content` at character index `i`
(JS `content.slice(0, i) + ins + content.slice(i)`). -/
def spliceStr (content : String) (i : Nat) (ins : String) : String :=
  ⟨content.data.take i ++ ins.data ++ content.data.drop i⟩

/-- ASCII whitespace, modelling the regex class `\s` for the inputs at hand. -/
def isWsChar (c : Char) : Bool := c = ' ' || c = '\t' || c = '\n' || c = '\r'

/-- JS `String.trim` (ASCII whitespace). -/
def trimStr (s : String) : String :=
  ⟨((s.data.dropWhile isWsChar).reverse.dropWhile isWsChar).reverse⟩

/-- JS `String.toLowerCase` (ASCII range, sufficient for the scanned inputs). -/
def strLower (s : String) : String := ⟨s.data.map Char.toLower⟩

/-- Decimal value accumulation for a digit run (models `parseInt(str, 10)`
applied to the digits captured by `(\d+)`). -/
def readNat : List Char → Nat → Nat
  | [], acc => acc
  | c :: cs, acc => if c.isDigit then readNat cs (acc * 10 + (c.toNat - 48)) else acc

/-! ## Route-table mutation engine (src/features/pages.ts) -/

/-- JS `String.split` with a single-character separator. -/
def splitOnChar (sep : Char) : List Char → List (List Char)
  | [] => [[]]
  | c :: cs =>
    if c = sep then [] :: splitOnChar sep cs
    else
      match splitOnChar sep cs with
      | h :: t => (c :: h) :: t
      | [] => [[c]]

/-- JS `Array.join` with a separator. -/
def joinWith (sep : List Char) : List (List Char) → List Char
  | [] => []
  | [x] => x
  | x :: y :: rest => x ++ sep ++ joinWith sep (y :: rest)

/-- Capitalize the first character of a word
(`word.charAt(0).toUpperCase() + word.slice(1)`). -/
def capWord : List Char → List Char
  | [] => []
  | c :: cs => c.toUpper :: cs

/-- `toTitle` from pages.ts: split the slug on hyphens, capitalize the first
character of each word, join with spaces. -/
def toTitle (slug : String) : String :=
  ⟨joinWith (" ".data) ((splitOnChar '-' slug.data).map capWord)⟩

/-- `toRouteId` from pages.ts: replace every hyphen by an underscore. -/
def toRouteId (slug : String) : String :=
  ⟨slug.data.map (fun c => if c = '-' then '_' else c)⟩

/-- All numbers captured by the scan `/order:\s*(\d+)/g` over the content,
in order of occurrence.  The scan advances one character at a time; a
successful match cannot overlap a later occurrence of `order:` because the
matched region past its first character contains no letter `o`. -/
def orderNums : List Char → List Nat
  | [] => []
  | c :: cs =>
    if leadsWith ("order:".data) (c :: cs) then
      let after := ((c :: cs).drop 6).dropWhile isWsChar
      match after.head? with
      | some d =>
        if d.isDigit then readNat (after.takeWhile Char.isDigit) 0 :: orderNums cs
        else orderNums cs
      | Option.none => orderNums cs
    else orderNums cs

/-- `getNextNavOrder` from pages.ts: highest existing `order:` value plus 10
(the running-maximum loop of the source, starting from 0). -/
def getNextNavOrder (content : String) : Nat :=
  (orderNums content.data).foldl (fun m o => if o > m then o else m) 0 + 10

/-- Anchor marking the end of a route-table object literal. -/
def routesAnchor : String := "\x7d as const satisfies"

/-- The route entry text spliced by `addBaseRouteEntry`. -/
def baseRouteEntryText (pageName routeId title : String) (navOrder : Nat) : String :=
  "\n  // Custom page: " ++ pageName ++ "\n  " ++ routeId ++ ": \x7b\n    path: '/"
    ++ pageName ++ "',\n    nav: \x7b show: true, order: " ++ toString navOrder
    ++ ", label: '" ++ title ++ "' \x7d,\n  \x7d,\n"

/-- The route entry text spliced by `addI18nRouteEntry`. -/
def i18nRouteEntryText (pageName routeId : String) (navOrder : Nat) : String :=
  "\n  // Custom page: " ++ pageName ++ "\n  " ++ routeId ++ ": \x7b\n    en: '"
    ++ pageName ++ "', es: '" ++ pageName ++ "', fr: '" ++ pageName
    ++ "',\n    nav: \x7b show: true, order: " ++ toString navOrder
    ++ ", label: 'nav." ++ routeId ++ "' \x7d,\n  \x7d,\n"

/-- Content-level transformation of `addBaseRouteEntry`: `some c` means the
file is rewritten with `c`; `Option.none` means the mutation is skipped
(route already present, or anchor not found). -/
def addBaseRouteText (content pageName : String) : Option String :=
  let routeId := toRouteId pageName
  let title := toTitle pageName
  if hasSub content (routeId ++ ":") then Option.none
  else
    match findSub? routesAnchor.data content.data with
    | Option.none => Option.none
    | some i =>
      let navOrder := getNextNavOrder content
      some (spliceStr content i (baseRouteEntryText pageName routeId title navOrder))

/-- Content-level transformation of the route-table part of
`addI18nRouteEntry`. -/
def addI18nRouteText (content pageName : String) : Option String :=
  let routeId := toRouteId pageName
  if hasSub content (routeId ++ ":") then Option.none
  else
    match findSub? routesAnchor.data content.data with
    | Option.none => Option.none
    | some i =>
      let navOrder := getNextNavOrder content
      some (spliceStr content i (i18nRouteEntryText pageName routeId navOrder))

/-! ## Working tree model -/

/-- The working tree: an association list from project-relative file paths to
file contents.  No in-memory state beyond it is kept between steps. -/
abbrev FS := List (String × String)

def fsGet? : FS → String → Option String
  | [], _ => Option.none
  | e :: rest, p => if e.1 = p then some e.2 else fsGet? rest p

/-- `writeFileSync`: overwrite the entry when the path exists, append otherwise. -/
def fsWrite : FS → String → String → FS
  | [], p, c => [(p, c)]
  | e :: rest, p, c => if e.1 = p then (p, c) :: rest else e :: fsWrite rest p c

def fsHas (fs : FS) (p : String) : Bool := (fsGet? fs p).isSome

/-- `p` is the item itself or lies strictly under the directory `item`
(recursive `rmSync` of a path removes the file of that exact name and every
file below it). -/
def pathUnder (item p : String) : Bool :=
  p = item || leadsWith (item ++ "/").data p.data

/-- `removeItems` from scaffold.ts: best-effort deletion of each listed path
(file or directory subtree). -/
def removeItems (fs : FS) (items : List String) : FS :=
  fs.filter (fun e => !(items.any (fun it => pathUnder it e.1)))

/-- `copyTemplateFiles` from scaffold.ts: copy every overlay file onto the
destination tree with unconditional overwrite. -/
def copyTemplateFiles (overlay : FS) (dest : FS) : FS :=
  overlay.foldl (fun acc e => fsWrite acc e.1 e.2) dest

/-! ## File-system level route mutations (src/features/pages.ts) -/

def routesPathBase : String := "src/config/routes.ts"

def routesPathI18n : String := "src/i18n/routes.ts"

/-- `addBaseRouteEntry`: read src/config/routes.ts (skip when absent), skip
when the route id is already present or the anchor is missing, otherwise
splice the new entry before the anchor and write the file back. -/
def addBaseRouteEntry (fs : FS) (pageName : String) : FS :=
  match fsGet? fs routesPathBase with
  | Option.none => fs
  | some content =>
    match addBaseRouteText content pageName with
    | Option.none => fs
    | some c2 => fsWrite fs routesPathBase c2

/-- First match of the regex `nav:\s*\{[^}]+\}` starting exactly at `l`,
returning the matched text. -/
def navMatchAt (l : List Char) : Option (List Char) :=
  if leadsWith ("nav:".data) l then
    let rest := l.drop 4
    let ws := rest.takeWhile isWsChar
    let rest2 := rest.dropWhile isWsChar
    match rest2 with
    | c :: rest3 =>
      if c = lbrace then
        let body := rest3.takeWhile (fun c => c ≠ rbrace)
        let rest4 := rest3.dropWhile (fun c => c ≠ rbrace)
        match rest4, body with
        | cl :: _, _ :: _ =>
          if cl = rbrace then some (("nav:".data) ++ ws ++ [lbrace] ++ body ++ [rbrace])
          else Option.none
        | _, _ => Option.none
      else Option.none
    | [] => Option.none
  else Option.none

/-- Leftmost match of `nav:\s*\{[^}]+\}` in the content (JS `String.match`). -/
def navFind? : List Char → Option (List Char)
  | [] => Option.none
  | c :: cs =>
    match navMatchAt (c :: cs) with
    | some m => some m
    | Option.none => navFind? cs

/-- Index of the last occurrence of the character `c` (JS `lastIndexOf`). -/
def lastIdxOf (c : Char) : List Char → Option Nat
  | [] => Option.none
  | a :: as =>
    match lastIdxOf c as with
    | some i => some (i + 1)
    | Option.none => if a = c then some 0 else Option.none

/-- JS `String.replace` with a plain-string pattern: replace the first
occurrence of `pat` by `repl`. -/
def replaceFirst (l pat repl : List Char) : List Char :=
  match findSub? pat l with
  | Option.none => l
  | some i => l.take i ++ repl ++ l.drop (i + pat.length)

/-- Does the multiline regex `^\s*<routeId>:\s*\{` match starting at `l`
(which is either the whole content or a suffix following a newline)? -/
def pageKeyMatchAt (routeId : List Char) (l : List Char) : Bool :=
  let rest := l.dropWhile isWsChar
  if leadsWith routeId rest then
    match rest.drop routeId.length with
    | ':' :: r3 => (r3.dropWhile isWsChar).head? = some lbrace
    | _ => false
  else false

def pageKeyScan (routeId : List Char) : List Char → Bool
  | [] => false
  | c :: cs => (c = '\n' && pageKeyMatchAt routeId cs) || pageKeyScan routeId cs

/-- Test of `new RegExp("^\\s*" + routeId + ":\\s*\\{", "m")` over the content. -/
def pageKeyTest (routeId content : String) : Bool :=
  pageKeyMatchAt routeId.data content.data || pageKeyScan routeId.data content.data

/-- The page-translation block spliced before the closing `as const`. -/
def pageTransText (routeId title : String) : String :=
  "\n  // " ++ title ++ " page\n  " ++ routeId ++ ": \x7b\n    title: '" ++ title
    ++ "',\n    description: 'Add your " ++ strLower title
    ++ " page description here.',\n  \x7d,\n\n"

def translationPath (locale : String) : String :=
  "src/i18n/translations/" ++ locale ++ ".ts"

/-- One iteration of the locale loop of `addI18nTranslationKeys`. -/
def addTranslationForLocale (fs : FS) (routeId title locale : String) : FS :=
  match fsGet? fs (translationPath locale) with
  | Option.none => fs
  | some content0 =>
    let content1 :=
      if hasSub content0 (routeId ++ ":") then content0
      else
        match navFind? content0.data with
        | Option.none => content0
        | some navSection =>
          match lastIdxOf rbrace navSection with
          | Option.none => content0
          | some ip =>
            let newNav := navSection.take ip
              ++ ("    " ++ routeId ++ ": '" ++ title ++ "',\n  ").data
              ++ navSection.drop ip
            ⟨replaceFirst content0.data navSection newNav⟩
    let content2 :=
      if pageKeyTest routeId content1 then content1
      else
        match findSubRev? ("\x7d as const".data) content1.data with
        | Option.none => content1
        | some i => spliceStr content1 i (pageTransText routeId title)
    fsWrite fs (translationPath locale) content2

/-- `addI18nTranslationKeys` from pages.ts, over the locales en, es, fr. -/
def addI18nTranslationKeys (fs : FS) (routeId title : String) : FS :=
  (["en", "es", "fr"].foldl (fun acc loc => addTranslationForLocale acc routeId title loc) fs)

/-- `addI18nRouteEntry`: splice into src/i18n/routes.ts (skipping when the
file, or the anchor, is missing or the route exists), then add translation
keys when the splice happened. -/
def addI18nRouteEntry (fs : FS) (pageName : String) : FS :=
  match fsGet? fs routesPathI18n with
  | Option.none => fs
  | some content =>
    match addI18nRouteText content pageName with
    | Option.none => fs
    | some c2 =>
      let fs2 := fsWrite fs routesPathI18n c2
      addI18nTranslationKeys fs2 (toRouteId pageName) (toTitle pageName)

/-! ## Page generation (src/features/pages.ts) -/

inductive PageLayout
  | page
  | landing
deriving DecidableEq

/-- `generatePageTemplate` from pages.ts (the standard, non-i18n page body). -/
def generatePageTemplate (pageName : String) (layout : PageLayout) : String :=
  let title := toTitle pageName
  let layoutName := if layout = PageLayout.landing then "LandingLayout" else "PageLayout"
  "---\nimport " ++ layoutName ++ " from '@/layouts/" ++ layoutName ++ ".astro';\n---\n\n<"
    ++ layoutName ++ "\n  title=\"" ++ title
    ++ "\"\n  description=\"Add your description here\"\n>\n  <!-- Hero Section -->\n  <section class=\"py-20 bg-secondary\">\n    <div class=\"container\">\n      <h1 class=\"text-4xl font-bold text-foreground\">"
    ++ title
    ++ "</h1>\n      <p class=\"mt-4 text-foreground-muted max-w-2xl\">\n        Add your content here.\n      </p>\n    </div>\n  </section>\n\n  <!-- Content Section -->\n  <section class=\"py-16\">\n    <div class=\"container\">\n      <!-- Your content -->\n    </div>\n  </section>\n</"
    ++ layoutName ++ ">\n"

/-- `generateI18nPageTemplate` from pages.ts (the i18n-aware page body). -/
def generateI18nPageTemplate (pageName : String) (layout : PageLayout) : String :=
  let title := toTitle pageName
  let layoutName := if layout = PageLayout.landing then "LandingLayout" else "PageLayout"
  let routeId := toRouteId pageName
  let titleKey := routeId ++ ".title"
  let descKey := routeId ++ ".description"
  "---\nimport " ++ layoutName ++ " from '@/layouts/" ++ layoutName ++ ".astro';\n"
    ++ "import \x7b locales, isValidLocale, defaultLocale, type Locale \x7d from '@/i18n/config';\n"
    ++ "import \x7b useTranslations \x7d from '@/i18n/index';\n"
    ++ "import \x7b routes \x7d from '@/i18n/routes';\n\n"
    ++ "export function getStaticPaths() \x7b\n  return locales\n    .filter((lang) => lang !== defaultLocale)\n    .map((lang) => (\x7b\n      params: \x7b\n        lang,\n        "
    ++ routeId ++ ": routes." ++ routeId ++ "[lang],\n      \x7d,\n    \x7d));\n\x7d\n\n"
    ++ "const \x7b lang \x7d = Astro.params;\n\nif (!lang || !isValidLocale(lang)) \x7b\n  return Astro.redirect('/');\n\x7d\n\n"
    ++ "const locale = lang as Locale;\nconst t = useTranslations(locale);\n---\n\n<"
    ++ layoutName ++ "\n  title=\x7bt('" ++ titleKey ++ "') || '" ++ title
    ++ "'\x7d\n  description=\x7bt('" ++ descKey
    ++ "') || 'Add your description here'\x7d\n  lang=\x7blocale\x7d\n  routeId=\""
    ++ routeId
    ++ "\"\n>\n  <!-- Hero Section -->\n  <section class=\"py-20 bg-secondary\">\n    <div class=\"container\">\n      <h1 class=\"text-4xl font-bold text-foreground\">\n        \x7bt('"
    ++ titleKey ++ "') || '" ++ title
    ++ "'\x7d\n      </h1>\n      <p class=\"mt-4 text-foreground-muted max-w-2xl\">\n        \x7bt('"
    ++ descKey
    ++ "') || 'Add your content here.'\x7d\n      </p>\n    </div>\n  </section>\n\n  <!-- Content Section -->\n  <section class=\"py-16\">\n    <div class=\"container\">\n      <!-- Your content -->\n    </div>\n  </section>\n</"
    ++ layoutName ++ ">\n"

/-- The path of a generated default-locale page file. -/
def pagePath (pageName : String) : String := "src/pages/" ++ pageName ++ ".astro"

/-- The path of a generated localized page file (catch-all segment named after
the route identifier). -/
def langPagePath (routeId : String) : String :=
  "src/pages/[lang]/[..." ++ routeId ++ "].astro"

/-- One iteration of the first loop of `generatePages`: write the
default-locale page file, record its path, and (when i18n is off) add the
base route entry. -/
def genStepBase (layout : PageLayout) (isI18n : Bool) (acc : FS × List String)
    (pageName : String) : FS × List String :=
  let fs1 := fsWrite acc.1 (pagePath pageName) (generatePageTemplate pageName layout)
  let gen1 := acc.2 ++ [pagePath pageName]
  let fs2 := if !isI18n then addBaseRouteEntry fs1 pageName else fs1
  (fs2, gen1)

/-- One iteration of the i18n loop of `generatePages`: write the localized
page file, record its path, and add the i18n route entry. -/
def genStepI18n (layout : PageLayout) (acc : FS × List String)
    (pageName : String) : FS × List String :=
  let routeId := toRouteId pageName
  let fs1 := fsWrite acc.1 (langPagePath routeId) (generateI18nPageTemplate pageName layout)
  let gen1 := acc.2 ++ [langPagePath routeId]
  let fs2 := addI18nRouteEntry fs1 pageName
  (fs2, gen1)

/-- `generatePages` from pages.ts: write the default-locale page file for each
requested name (updating the base route table when i18n is off), then, in
i18n mode, the localized page file (updating the i18n route table); returns
the final tree and the list of generated file paths. -/
def generatePages (fs : FS) (pages : List String) (layout : PageLayout)
    (isI18n : Bool) : FS × List String :=
  if pages.isEmpty then (fs, [])
  else
    let acc1 := pages.foldl (genStepBase layout isI18n) (fs, [])
    if isI18n then pages.foldl (genStepI18n layout) acc1
    else acc1

/-! ## Page-name sanitizer (src/prompts.ts, parsePageNames) -/

/-- Membership in the character class `[a-z0-9-]`. -/
def isSlugChar (c : Char) : Bool :=
  ('a' ≤ c && c ≤ 'z') || ('0' ≤ c && c ≤ '9') || c = '-'

/-- The character substitution of the replacement that maps every character
outside `[a-z0-9-]` to a hyphen. -/
def sanitizeChar (c : Char) : Char :=
  if isSlugChar c then c else '-'

/-- The run collapsing replacement: every run of hyphens becomes one hyphen. -/
def squashHyphens : List Char → List Char
  | [] => []
  | [c] => [c]
  | a :: b :: rest =>
    if a = '-' && b = '-' then squashHyphens (b :: rest)
    else a :: squashHyphens (b :: rest)

/-- Strip one leading hyphen, modelling the `^-` alternative of
`.replace(/^-|-$/g, '')`. -/
def stripLeadHyphen (l : List Char) : List Char :=
  match l with
  | c :: rest => if c = '-' then rest else l
  | [] => l

/-- Strip one trailing hyphen, modelling the `-$` alternative of
`.replace(/^-|-$/g, '')`. -/
def stripTrailHyphen (l : List Char) : List Char :=
  if l.getLast? = some '-' then l.dropLast else l

/-- The per-name sanitation chain of parsePageNames. -/
def slugify (n : String) : String :=
  ⟨stripTrailHyphen (stripLeadHyphen (squashHyphens (n.data.map sanitizeChar)))⟩

def reservedNames : List String := ["index", "blog", "404", "rss"]

/-- `parsePageNames` from prompts.ts: split on commas, trim and lowercase,
drop empties, sanitize each name to a slug, drop empties and reserved names. -/
def parsePageNames (input : String) : List String :=
  if (trimStr input).data.isEmpty then []
  else
    ((((splitOnChar ',' input.data).map (fun l => strLower (trimStr ⟨l⟩))).filter
          (fun n => n.data.length > 0)).map slugify).filter
      (fun n => n.data.length > 0 && !(reservedNames.contains n))

/-! ## Component registry model (src/registry/types.ts) -/

structure CategoryEntry where
  name : String
  description : String
deriving DecidableEq

structure UtilityEntry where
  name : String
  description : String
  files : List String
  npm : List String
deriving DecidableEq

structure ComponentDependencies where
  utilities : List String
  components : List String
deriving DecidableEq

structure ComponentEntry where
  name : String
  category : String
  files : List String
  dependencies : ComponentDependencies
  premium : Bool
deriving DecidableEq

/-- The registry: categories, utility bundles and components keyed by id.
JavaScript objects are modelled as association lists in key order. -/
structure ComponentRegistry where
  version : String
  categories : List (String × CategoryEntry)
  utilities : List (String × UtilityEntry)
  components : List (String × ComponentEntry)
deriving DecidableEq

inductive ComponentSelectionMode
  | none
  | categories
  | individual
  | all
deriving DecidableEq

structure ComponentSelection where
  mode : ComponentSelectionMode
  categories : Option (List String)
  components : Option (List String)
deriving DecidableEq

structure ResolvedComponents where
  components : List String
  utilities : List String
  files : List String
  npmPackages : List String
deriving DecidableEq

/-- Key lookup in an object modelled as an association list
(`registry.components[id]`, `registry.utilities[id]`). -/
def lookupReg {α : Type} : List (String × α) → String → Option α
  | [], _ => Option.none
  | e :: rest, k => if e.1 = k then some e.2 else lookupReg rest k

/-! ## Dependency resolver (src/registry/resolver.ts) -/

/-- `Set.add`: append when not already present (JS Set insertion order). -/
def insertIfNew (l : List String) (x : String) : List String :=
  if l.contains x then l else l ++ [x]

def addAll (acc : List String) (xs : List String) : List String :=
  xs.foldl insertIfNew acc

/-- The three accumulator sets of the inner `resolve` closure. -/
structure ResolveState where
  resolved : List String
  utilities : List String
  files : List String
deriving DecidableEq

/-- After the recursive resolution of the dependencies (giving `st1`), the
expanded component unions its utility ids and file paths into the
accumulators and is marked resolved. -/
def mergeComp (cid : String) (comp : ComponentEntry) (st1 : ResolveState) : ResolveState :=
  { resolved := insertIfNew st1.resolved cid
    utilities := addAll st1.utilities comp.dependencies.utilities
    files := addAll st1.files comp.files }

/-- The recursive `resolve` closure of `resolveDependencies`: skip when
visited, warn-and-skip when absent from the registry, otherwise recursively
resolve component dependencies first, then union utilities and files, then
mark the component resolved.  The `fuel` argument bounds the recursion depth
of the shallow embedding; on a registry whose dependency relation is a DAG
(the documented invariant) a fuel exceeding every dependency rank makes the
embedding exact. -/
def resolveComp (reg : ComponentRegistry) : Nat → ResolveState → String → ResolveState
  | 0, st, _ => st
  | fuel + 1, st, cid =>
    if st.resolved.contains cid then st
    else
      match lookupReg reg.components cid with
      | Option.none => st
      | some comp =>
        mergeComp cid comp (comp.dependencies.components.foldl (resolveComp reg fuel) st)

/-- The `requestedComponents` computed by the mode switch of
`resolveDependencies`. -/
def requestedFor (sel : ComponentSelection) (reg : ComponentRegistry) : List String :=
  match sel.mode with
  | ComponentSelectionMode.none => []
  | ComponentSelectionMode.all => reg.components.map (fun e => e.1)
  | ComponentSelectionMode.categories =>
    match sel.categories with
    | some cats => (reg.components.filter (fun e => cats.contains e.2.category)).map (fun e => e.1)
    | Option.none => []
  | ComponentSelectionMode.individual => sel.components.getD []

/-- The non-early-return path of `resolveDependencies`: resolve every
requested component (the fuel equals the number of registry components,
sufficient for any DAG registry), then expand the referenced utility bundles
into files and npm package names. -/
def resolveCore (sel : ComponentSelection) (reg : ComponentRegistry) : ResolvedComponents :=
  let st := (requestedFor sel reg).foldl
    (resolveComp reg reg.components.length)
    { resolved := [], utilities := [], files := [] }
  let expanded := st.utilities.foldl
    (fun (acc : List String × List String) utilId =>
      match lookupReg reg.utilities utilId with
      | Option.none => acc
      | some u => (addAll acc.1 u.files, addAll acc.2 u.npm))
    (st.files, [])
  { components := st.resolved
    utilities := st.utilities
    files := expanded.1
    npmPackages := expanded.2 }

/-- `resolveDependencies` from resolver.ts.  Mode `none` returns early with
four empty collections; otherwise every requested component is resolved and
the referenced utility bundles are expanded into files and npm packages. -/
def resolveDependencies (sel : ComponentSelection) (reg : ComponentRegistry) :
    ResolvedComponents :=
  match sel.mode with
  | ComponentSelectionMode.none =>
    { components := [], utilities := [], files := [], npmPackages := [] }
  | _ => resolveCore sel reg

/-! ## Overlay composition pipeline (src/scaffold.ts) -/

def CLEANUP_ITEMS : List String :=
  ["pnpm-lock.yaml", "package-lock.json", "yarn.lock", "bun.lockb", ".git"]

def DEMO_CONTENT : List String :=
  [ "src/components/landing"
  , "src/components/hero"
  , "src/pages/index.astro"
  , "src/pages/about.astro"
  , "src/pages/contact.astro"
  , "src/pages/components.astro"
  , "src/pages/[lang]/index.astro"
  , "src/pages/[lang]/[...about].astro"
  , "src/pages/[lang]/[...contact].astro"
  , "src/pages/[lang]/[...components].astro"
  , "src/layouts/LandingLayout.astro"
  , "src/content/blog"
  , "src/content/faqs"
  , "src/content/authors"
  , "src/content/pages" ]

/-- The optional component directories (identical lists appear in
`OPTIONAL_COMPONENT_DIRS` and in the local `componentDirs` of
`keepOnlyFiles`). -/
def OPTIONAL_COMPONENT_DIRS : List String :=
  ["src/components/ui", "src/components/patterns", "src/components/hero"]

/-- Whether a file path lies under one of the optional component directories
(the files enumerated by `walkFilesRelative` for those directories). -/
def underAnyOptionalDir (p : String) : Bool :=
  OPTIONAL_COMPONENT_DIRS.any (fun d => leadsWith (d ++ "/").data p.data)

/-- `keepOnlyFiles` from scaffold.ts: inside the optional component
directories delete every file whose relative path is not in the keep set;
all other files are untouched (the empty-directory pruning of the source has
no counterpart in a tree modelled as a set of files). -/
def keepOnlyFiles (fs : FS) (filesToKeep : List String) : FS :=
  fs.filter (fun e => !(underAnyOptionalDir e.1) || filesToKeep.contains e.1)

/-- Outcome of `fetchRegistry()` (an external collaborator: the registry is
fetched over the network and cached; retrieval can fail). -/
inductive FetchOutcome
  | ok (reg : ComponentRegistry)
  | unavailable

/-- `applyComponentSelection` from scaffold.ts: keep everything for `all`,
remove the optional component directories for `none`, and for the other two
modes resolve against the fetched registry — a registry fetch failure is
caught, a warning is printed, and all components are kept. -/
def applyComponentSelection (fs : FS) (sel : ComponentSelection)
    (fetch : FetchOutcome) : Except String FS :=
  match sel.mode with
  | ComponentSelectionMode.all => Except.ok fs
  | ComponentSelectionMode.none => Except.ok (removeItems fs OPTIONAL_COMPONENT_DIRS)
  | _ =>
    match fetch with
    | FetchOutcome.unavailable => Except.ok fs
    | FetchOutcome.ok reg =>
      Except.ok (keepOnlyFiles fs (resolveDependencies sel reg).files)

/-- `createContentDirectories` from scaffold.ts: ensure src/content/blog
exists, marked with a .gitkeep file. -/
def createContentDirectories (fs : FS) : FS :=
  if fs.any (fun e => leadsWith ("src/content/blog/".data) e.1.data) then fs
  else fsWrite fs "src/content/blog/.gitkeep" ""

inductive PackageManager
  | pnpm
  | npm
  | yarn
  | bun
deriving DecidableEq

/-- `ScaffoldOptions` from types.ts. -/
structure ScaffoldOpts where
  projectName : String
  targetDir : String
  demo : Bool
  componentSelection : ComponentSelection
  i18n : Bool
  pages : List String
  pageLayout : PageLayout
  packageManager : PackageManager

/-- Step 3 of `scaffold`: apply the i18n overlay when requested (before demo
removal). -/
def scaffoldStep3 (i18nOverlay : FS) (opts : ScaffoldOpts) (t2 : FS) : FS :=
  if opts.i18n then copyTemplateFiles i18nOverlay t2 else t2

/-- Step 4 of `scaffold`: when the demo was declined, remove the demo
content (base and localized path shapes), apply the minimal base template
and create the expected content directories. -/
def scaffoldStep4 (baseTemplate : FS) (opts : ScaffoldOpts) (t3 : FS) : FS :=
  if !opts.demo then
    createContentDirectories (copyTemplateFiles baseTemplate (removeItems t3 DEMO_CONTENT))
  else t3

/-- Step 5 of `scaffold`: generate the requested starter pages. -/
def scaffoldStep5 (opts : ScaffoldOpts) (t4 : FS) : FS × List String :=
  if opts.pages.length > 0 then generatePages t4 opts.pages opts.pageLayout opts.i18n
  else (t4, [])

/-- Steps 3 to 5 of `scaffold`: the i18n overlay (before demo removal), the
demo-content removal with base-template substitution and content-directory
creation, and page generation. -/
def scaffoldRest (i18nOverlay baseTemplate : FS) (opts : ScaffoldOpts) (t2 : FS) :
    FS × List String :=
  scaffoldStep5 opts (scaffoldStep4 baseTemplate opts (scaffoldStep3 i18nOverlay opts t2))

/-- Steps 1 to 5 of `scaffold` from scaffold.ts, over a downloaded template
tree, the i18n overlay tree and the base (minimal) template tree.  Steps 6
onward rewrite only package.json and the provenance record and invoke
external collaborators; they do not touch the files the stated properties
concern. -/
def scaffoldPipeline (template i18nOverlay baseTemplate : FS) (opts : ScaffoldOpts)
    (fetch : FetchOutcome) : Except String (FS × List String) :=
  let t1 := removeItems template CLEANUP_ITEMS
  match (if opts.componentSelection.mode ≠ ComponentSelectionMode.all then
          applyComponentSelection t1 opts.componentSelection fetch
        else Except.ok t1) with
  | Except.error e => Except.error e
  | Except.ok t2 => Except.ok (scaffoldRest i18nOverlay baseTemplate opts t2)

/-! ## Generic lemmas about the working-tree model -/

/-- Lookup in a key-filtered tree: present exactly when the key predicate
holds. -/
theorem fsGet?_filterKey (q : String → Bool) (fs : FS) (p : String) :
    fsGet? (fs.filter (fun e => q e.1)) p
      = if q p then fsGet? fs p else Option.none := by
  induction fs with
  | nil => cases hq : q p <;> simp [fsGet?, hq]
  | cons e rest ih =>
    by_cases hep : e.1 = p
    · subst hep
      cases hq : q e.1 <;> simp [List.filter, fsGet?, hq, ih]
    · cases hq : q e.1 <;> simp [List.filter, fsGet?, hq, hep, ih]

theorem keepOnlyFiles_get (fs : FS) (keep : List String) (p : String) :
    fsGet? (keepOnlyFiles fs keep) p
      = if !(underAnyOptionalDir p) || keep.contains p then fsGet? fs p
        else Option.none :=
  fsGet?_filterKey (fun x => !(underAnyOptionalDir x) || keep.contains x) fs p

theorem removeItems_get (fs : FS) (items : List String) (p : String) :
    fsGet? (removeItems fs items) p
      = if items.any (fun it => pathUnder it p) then Option.none
        else fsGet? fs p := by
  have h := fsGet?_filterKey (fun x => !(items.any (fun it => pathUnder it x))) fs p
  unfold removeItems
  rw [h]
  cases hq : items.any (fun it => pathUnder it p) <;> simp [hq]

theorem fsGet?_write_self (fs : FS) (p c : String) :
    fsGet? (fsWrite fs p c) p = some c := by
  induction fs with
  | nil => simp [fsWrite, fsGet?]
  | cons e rest ih =>
    by_cases hep : e.1 = p <;> simp [fsWrite, fsGet?, hep, ih]

theorem fsGet?_write_ne (fs : FS) (p c q : String) (hne : q ≠ p) :
    fsGet? (fsWrite fs p c) q = fsGet? fs q := by
  have hpq : ¬ p = q := fun h => hne h.symm
  induction fs with
  | nil => simp [fsWrite, fsGet?, hpq]
  | cons e rest ih =>
    simp only [fsWrite]
    by_cases hep : e.1 = p
    · rw [if_pos hep]
      show (if p = q then some c else fsGet? rest q)
        = (if e.1 = q then some e.2 else fsGet? rest q)
      rw [if_neg hpq, if_neg (by rw [hep]; exact hpq)]
    · rw [if_neg hep]
      show (if e.1 = q then some e.2 else fsGet? (fsWrite rest p c) q)
        = (if e.1 = q then some e.2 else fsGet? rest q)
      rw [ih]

theorem fsHas_write (fs : FS) (p c q : String) :
    fsHas (fsWrite fs p c) q = true ↔ q = p ∨ fsHas fs q = true := by
  by_cases hqp : q = p
  · subst hqp
    simp [fsHas, fsGet?_write_self]
  · simp [fsHas, fsGet?_write_ne fs p c q hqp, hqp]

theorem fsHas_cons (e : String × String) (rest : FS) (p : String) :
    fsHas (e :: rest) p = true ↔ e.1 = p ∨ fsHas rest p = true := by
  by_cases hep : e.1 = p <;> simp [fsHas, fsGet?, hep]

theorem copyTemplateFiles_has (overlay : FS) (dest : FS) (p : String) :
    fsHas (copyTemplateFiles overlay dest) p = true
      ↔ fsHas overlay p = true ∨ fsHas dest p = true := by
  induction overlay generalizing dest with
  | nil => simp [copyTemplateFiles, fsHas, fsGet?]
  | cons e rest ih =>
    show fsHas (copyTemplateFiles rest (fsWrite dest e.1 e.2)) p = true ↔ _
    rw [ih, fsHas_write, fsHas_cons]
    rw [show (p = e.1) ↔ (e.1 = p) from eq_comm]
    tauto

/-! ## Claim C9: slug sanitation -/

/-- C9: the page-name sanitizer maps "  Contact Us!! " to the slug
'contact-us'; the derived route identifier is 'contact_us' and the derived
display title is "Contact Us"; an input consisting solely of a reserved word
('index') is rejected, so page generation for it produces zero generated
files (and leaves the tree untouched). -/
theorem c9_theorem :
    parsePageNames "  Contact Us!! " = ["contact-us"]
    ∧ toRouteId "contact-us" = "contact_us"
    ∧ toTitle "contact-us" = "Contact Us"
    ∧ parsePageNames "index" = []
    ∧ ∀ (fs : FS) (layout : PageLayout) (isI18n : Bool),
        generatePages fs (parsePageNames "index") layout isI18n = (fs, []) := by
  refine ⟨by decide, by decide, by decide, by decide, ?_⟩
  intro fs layout isI18n
  have h : parsePageNames "index" = [] := by decide
  rw [h]
  rfl

/-! ## Claim C3: navigation order is maximum-plus-ten -/

/-- The running-maximum loop of `getNextNavOrder` computes the maximum. -/
theorem foldl_runningMax (l : List Nat) (a : Nat) :
    l.foldl (fun m o => if o > m then o else m) a = max a (l.foldr max 0) := by
  induction l generalizing a with
  | nil =>
    simp only [List.foldl_nil, List.foldr_nil]
    exact (max_eq_left (Nat.zero_le a)).symm
  | cons x xs ih =>
    simp only [List.foldl_cons, List.foldr_cons]
    rw [ih]
    have hx : (if x > a then x else a) = max a x := by
      rcases Nat.lt_or_ge a x with h | h
      · rw [if_pos h, max_eq_right (Nat.le_of_lt h)]
      · rw [if_neg (Nat.not_lt.mpr h), max_eq_left h]
    rw [hx, max_assoc]

/-- A route table with no `order:` occurrence. -/
def emptyRouteTable : String :=
  "export const routes = \x7b\n\x7d as const satisfies Record<string, Route>;\n"

/-- A route table whose maximum existing order value is 40. -/
def routeTableMax40 : String :=
  "export const routes = \x7b\n  a: \x7border: 10\x7d,\n  b: \x7border: 40\x7d,\n  c: \x7border: 20\x7d,\n\x7d as const satisfies Record<string, Route>;\n"

/-- C3: the next navigation order is 10 more than the maximum integer among
all `order: <integer>` occurrences of the file, and 10 when there is none;
in particular an empty route table yields 10 (and the first spliced entry
carries `order: 10`), and a table whose maximum is 40 yields 50. -/
theorem c3_theorem (content : String) :
    getNextNavOrder content = (orderNums content.data).foldr max 0 + 10
    ∧ (orderNums content.data = [] → getNextNavOrder content = 10)
    ∧ getNextNavOrder emptyRouteTable = 10
    ∧ getNextNavOrder routeTableMax40 = 50
    ∧ subCount ((addBaseRouteText emptyRouteTable "team").getD emptyRouteTable) "order: 10" = 1 := by
  have hmain : getNextNavOrder content = (orderNums content.data).foldr max 0 + 10 := by
    unfold getNextNavOrder
    rw [foldl_runningMax]
    rw [max_eq_right (Nat.zero_le _)]
  refine ⟨hmain, ?_, by decide, by decide, by decide⟩
  intro h
  rw [hmain, h]
  rfl

/-- C3 witness: the order-assignment theorem applied at a concrete content
with no `order:` occurrence. -/
theorem c3_witness : getNextNavOrder "plain content" = 10 := by
  have h := c3_theorem "plain content"
  exact h.2.1 (by decide)

/-! ## Claim C2: route-table insertion is idempotent per page name -/

/-- The initial route table of the idempotence scenario, holding an entry
`about: {order: 10}`. -/
def demoRouteTable : String :=
  "export const routes = \x7b\n  about: \x7border: 10\x7d,\n\x7d as const satisfies Record<string, Route>;\n"

/-- The content-level mutation skips when the route identifier text is
already present in the file. -/
theorem addBaseRouteText_skip (content pageName : String)
    (h : hasSub content (toRouteId pageName ++ ":") = true) :
    addBaseRouteText content pageName = Option.none := by
  unfold addBaseRouteText
  simp [h]

/-- C2: if the route-table file already contains the route identifier text,
page generation leaves the file unchanged; concretely, on a table containing
`about: {order: 10}`, requesting `about` leaves the table unchanged, and
requesting `pricing` inserts exactly one `pricing` entry, with the literal
text `order: 20` appearing exactly once afterwards. -/
theorem c2_theorem (fs : FS) (content pageName : String)
    (hc : fsGet? fs routesPathBase = some content)
    (h : hasSub content (toRouteId pageName ++ ":") = true) :
    addBaseRouteEntry fs pageName = fs
    ∧ addBaseRouteEntry [(routesPathBase, demoRouteTable)] "about"
        = [(routesPathBase, demoRouteTable)]
    ∧ subCount ((addBaseRouteText demoRouteTable "pricing").getD demoRouteTable) "pricing:" = 1
    ∧ subCount ((addBaseRouteText demoRouteTable "pricing").getD demoRouteTable) "order: 20" = 1
    ∧ subCount demoRouteTable "order: 20" = 0 := by
  refine ⟨?_, by decide, by decide, by decide, by decide⟩
  unfold addBaseRouteEntry
  rw [hc]
  show (match addBaseRouteText content pageName with
        | Option.none => fs
        | some c2 => fsWrite fs routesPathBase c2) = fs
  rw [addBaseRouteText_skip content pageName h]

/-- C2 witness: the idempotence theorem applied to the scenario table and
the already-present page name `about`. -/
theorem c2_witness :
    addBaseRouteEntry [(routesPathBase, demoRouteTable)] "about"
      = [(routesPathBase, demoRouteTable)] :=
  (c2_theorem [(routesPathBase, demoRouteTable)] demoRouteTable "about"
    (by decide) (by decide)).1

/-! ## Claim C5: registry failure during composition -/

/-- A selection in individual mode, as used during composition. -/
def c5Selection : ComponentSelection :=
  { mode := ComponentSelectionMode.individual
  , categories := Option.none
  , components := some ["button"] }

/-- C5 counterexample: when registry retrieval fails for an individual-mode
selection, `applyComponentSelection` does not surface an error to the
caller — it returns the working tree unchanged (the catch block logs a
warning and keeps all components). -/
theorem c5_counterexample :
    applyComponentSelection [("src/components/ui/Button.astro", "b")] c5Selection
        FetchOutcome.unavailable
      = Except.ok [("src/components/ui/Button.astro", "b")] := rfl

/-- C5 (amended): when registry retrieval fails during composition of a
categories- or individual-mode selection, the failure is absorbed inside the
selection stage: no error is surfaced and the tree is returned unchanged
(all components are kept). -/
theorem c5_theorem (fs : FS) (sel : ComponentSelection)
    (h : sel.mode = ComponentSelectionMode.categories
      ∨ sel.mode = ComponentSelectionMode.individual) :
    applyComponentSelection fs sel FetchOutcome.unavailable = Except.ok fs := by
  unfold applyComponentSelection
  rcases h with h | h <;> rw [h]

/-- C5 witness: the amended theorem at a concrete tree and selection. -/
theorem c5_witness :
    applyComponentSelection [] c5Selection FetchOutcome.unavailable = Except.ok [] :=
  c5_theorem [] c5Selection (Or.inr rfl)

/-! ## Claim C4: selective component filtering is conservative and frame-bounded -/

/-- C4: after `keepOnlyFiles`, a file under a designated optional component
directory that is not in the resolved file set is absent; a resolved file
keeps its content (in particular every resolved file present in the template
stays present); and a file outside the optional directories is untouched
regardless of the selection. -/
theorem c4_theorem (fs : FS) (keep : List String) (p : String) :
    (underAnyOptionalDir p = true → keep.contains p = false →
      fsHas (keepOnlyFiles fs keep) p = false)
    ∧ (keep.contains p = true →
      fsGet? (keepOnlyFiles fs keep) p = fsGet? fs p)
    ∧ (underAnyOptionalDir p = false →
      fsGet? (keepOnlyFiles fs keep) p = fsGet? fs p) := by
  have base := keepOnlyFiles_get fs keep p
  refine ⟨?_, ?_, ?_⟩
  · intro h1 h2
    rw [h1, h2] at base
    simp only [Bool.not_true, Bool.false_or, if_false] at base
    simp [fsHas, base]
  · intro h1
    rw [h1] at base
    simp only [Bool.or_true, if_true] at base
    exact base
  · intro h1
    rw [h1] at base
    simp only [Bool.not_false, Bool.true_or, if_true] at base
    exact base

/-- C4 witness: the filtering theorem at a concrete tree, keep set and the
three kinds of paths. -/
theorem c4_witness :
    fsHas (keepOnlyFiles
        [ ("src/components/ui/Button.astro", "b")
        , ("src/components/ui/Card.astro", "c")
        , ("src/pages/index.astro", "i") ]
        ["src/components/ui/Card.astro"])
      "src/components/ui/Button.astro" = false
    ∧ fsGet? (keepOnlyFiles
        [ ("src/components/ui/Button.astro", "b")
        , ("src/components/ui/Card.astro", "c")
        , ("src/pages/index.astro", "i") ]
        ["src/components/ui/Card.astro"])
      "src/components/ui/Card.astro"
      = fsGet?
        [ ("src/components/ui/Button.astro", "b")
        , ("src/components/ui/Card.astro", "c")
        , ("src/pages/index.astro", "i") ]
        "src/components/ui/Card.astro"
    ∧ fsGet? (keepOnlyFiles
        [ ("src/components/ui/Button.astro", "b")
        , ("src/components/ui/Card.astro", "c")
        , ("src/pages/index.astro", "i") ]
        ["src/components/ui/Card.astro"])
      "src/pages/index.astro"
      = fsGet?
        [ ("src/components/ui/Button.astro", "b")
        , ("src/components/ui/Card.astro", "c")
        , ("src/pages/index.astro", "i") ]
        "src/pages/index.astro" :=
  ⟨(c4_theorem _ _ _).1 (by decide) (by decide)
  , (c4_theorem _ _ _).2.1 (by decide)
  , (c4_theorem _ _ _).2.2 (by decide)⟩

/-! ## Resolver lemmas (toward claims C6 and C7) -/

/-- A component id is present in the registry. -/
abbrev presentIn (reg : ComponentRegistry) (d : String) : Prop :=
  (lookupReg reg.components d).isSome = true

/-- A rank function witnessing that the module-dependency relation is a DAG:
every registry-present dependency of a component has strictly smaller rank. -/
abbrev RankOk (reg : ComponentRegistry) (rank : String → Nat) : Prop :=
  ∀ p ∈ reg.components, ∀ d ∈ p.2.dependencies.components,
    presentIn reg d → rank d < rank p.1

/-- The rank of every registry component is below the component count. -/
abbrev RankBound (reg : ComponentRegistry) (rank : String → Nat) : Prop :=
  ∀ p ∈ reg.components, rank p.1 < reg.components.length

theorem contains_iff_mem (l : List String) (x : String) :
    l.contains x = true ↔ x ∈ l := by
  show l.elem x = true ↔ x ∈ l
  exact List.elem_iff

theorem lookupReg_isSome_iff {α : Type} (m : List (String × α)) (k : String) :
    (lookupReg m k).isSome = true ↔ k ∈ m.map (fun e => e.1) := by
  induction m with
  | nil => simp [lookupReg]
  | cons e rest ih =>
    rw [List.map_cons, List.mem_cons]
    by_cases hek : e.1 = k
    · rw [lookupReg, if_pos hek]
      exact ⟨fun _ => Or.inl hek.symm, fun _ => rfl⟩
    · rw [lookupReg, if_neg hek, ih]
      constructor
      · exact Or.inr
      · rintro (h | h)
        · exact absurd h.symm hek
        · exact h

theorem lookupReg_mem {α : Type} (m : List (String × α)) (k : String) (v : α)
    (h : lookupReg m k = some v) : (k, v) ∈ m := by
  induction m with
  | nil => simp [lookupReg] at h
  | cons e rest ih =>
    by_cases hek : e.1 = k
    · rw [lookupReg, if_pos hek] at h
      injection h with h2
      cases e with
      | mk a b =>
        simp only at hek h2
        subst hek
        subst h2
        exact List.mem_cons_self _ _
    · rw [lookupReg, if_neg hek] at h
      exact List.mem_cons_of_mem _ (ih h)

theorem mem_insertIfNew_iff (l : List String) (x y : String) :
    y ∈ insertIfNew l x ↔ y ∈ l ∨ y = x := by
  unfold insertIfNew
  by_cases hc : l.contains x
  · rw [if_pos hc]
    constructor
    · exact Or.inl
    · rintro (h | h)
      · exact h
      · subst h
        exact (contains_iff_mem l y).mp hc
  · rw [if_neg hc]
    simp

theorem insertIfNew_nodup (l : List String) (x : String) (h : l.Nodup) :
    (insertIfNew l x).Nodup := by
  unfold insertIfNew
  by_cases hc : l.contains x
  · rw [if_pos hc]
    exact h
  · rw [if_neg hc]
    have hx : x ∉ l := fun hm => hc ((contains_iff_mem l x).mpr hm)
    simp [List.nodup_append, h, hx]

/-- Generic preservation of a property along a left fold. -/
theorem foldl_pres {α : Type} (P : α → Prop) (f : α → String → α)
    (hf : ∀ st c, P st → P (f st c)) :
    ∀ (l : List String) (st : α), P st → P (l.foldl f st)
  | [], _, h => h
  | c :: cs, st, h => foldl_pres P f hf cs (f st c) (hf st c h)

theorem mem_addAll_of_mem (acc xs : List String) (y : String) (h : y ∈ acc) :
    y ∈ addAll acc xs :=
  foldl_pres (fun l => y ∈ l) insertIfNew
    (fun l x hm => (mem_insertIfNew_iff l x y).mpr (Or.inl hm)) xs acc h

theorem addAll_nodup (acc xs : List String) (h : acc.Nodup) : (addAll acc xs).Nodup :=
  foldl_pres List.Nodup insertIfNew (fun l x hl => insertIfNew_nodup l x hl) xs acc h

theorem resolveComp_succ (reg : ComponentRegistry) (fuel : Nat) (st : ResolveState)
    (cid : String) :
    resolveComp reg (fuel + 1) st cid
      = if st.resolved.contains cid then st
        else
          match lookupReg reg.components cid with
          | Option.none => st
          | some comp =>
            mergeComp cid comp (comp.dependencies.components.foldl (resolveComp reg fuel) st) := rfl

theorem resolveComp_absent (reg : ComponentRegistry) (fuel : Nat) (st : ResolveState)
    (cid : String) (h : lookupReg reg.components cid = Option.none) :
    resolveComp reg fuel st cid = st := by
  cases fuel with
  | zero => rfl
  | succ fuel =>
    rw [resolveComp_succ]
    by_cases hv : st.resolved.contains cid
    · rw [if_pos hv]
    · rw [if_neg hv, h]

theorem resolveComp_adds (reg : ComponentRegistry) (fuel : Nat) (st : ResolveState)
    (cid : String) (hsome : presentIn reg cid) :
    cid ∈ (resolveComp reg (fuel + 1) st cid).resolved := by
  rw [resolveComp_succ]
  by_cases hv : st.resolved.contains cid
  · rw [if_pos hv]
    exact (contains_iff_mem _ _).mp hv
  · rw [if_neg hv]
    have hs : (lookupReg reg.components cid).isSome = true := hsome
    cases hl : lookupReg reg.components cid with
    | none =>
      rw [hl] at hs
      simp at hs
    | some comp =>
      show cid ∈ insertIfNew _ cid
      exact (mem_insertIfNew_iff _ _ _).mpr (Or.inr rfl)

theorem resolveComp_mono (reg : ComponentRegistry) :
    ∀ (fuel : Nat) (st : ResolveState) (cid x : String),
      x ∈ st.resolved → x ∈ (resolveComp reg fuel st cid).resolved := by
  intro fuel
  induction fuel with
  | zero => intro st cid x hx; exact hx
  | succ fuel ih =>
    intro st cid x hx
    rw [resolveComp_succ]
    by_cases hv : st.resolved.contains cid
    · rw [if_pos hv]; exact hx
    · rw [if_neg hv]
      cases hl : lookupReg reg.components cid with
      | none => exact hx
      | some comp =>
        show x ∈ insertIfNew _ cid
        refine (mem_insertIfNew_iff _ _ _).mpr (Or.inl ?_)
        exact foldl_pres (fun s => x ∈ s.resolved) (resolveComp reg fuel)
          (fun s c h => ih s c x h) comp.dependencies.components st hx

/-- Elements of the resolved set after a fold of `resolveComp` come from the
initial state or from the registry, given that single steps have that
property. -/
theorem resolveList_from (reg : ComponentRegistry) (fuel : Nat)
    (h1 : ∀ (st : ResolveState) (cid x : String),
      x ∈ (resolveComp reg fuel st cid).resolved → x ∈ st.resolved ∨ presentIn reg x) :
    ∀ (l : List String) (st : ResolveState) (x : String),
      x ∈ (l.foldl (resolveComp reg fuel) st).resolved
        → x ∈ st.resolved ∨ presentIn reg x := by
  intro l
  induction l with
  | nil => intro st x hx; exact Or.inl hx
  | cons d ds ih =>
    intro st x hx
    rw [List.foldl_cons] at hx
    rcases ih _ x hx with h | h
    · exact h1 st d x h
    · exact Or.inr h

theorem resolveComp_from (reg : ComponentRegistry) :
    ∀ (fuel : Nat) (st : ResolveState) (cid x : String),
      x ∈ (resolveComp reg fuel st cid).resolved → x ∈ st.resolved ∨ presentIn reg x := by
  intro fuel
  induction fuel with
  | zero => intro st cid x hx; exact Or.inl hx
  | succ fuel ih =>
    intro st cid x hx
    rw [resolveComp_succ] at hx
    by_cases hv : st.resolved.contains cid
    · rw [if_pos hv] at hx; exact Or.inl hx
    · rw [if_neg hv] at hx
      cases hl : lookupReg reg.components cid with
      | none =>
        rw [hl] at hx
        exact Or.inl hx
      | some comp =>
        rw [hl] at hx
        replace hx := (mem_insertIfNew_iff _ _ _).mp hx
        rcases hx with hx | hx
        · exact resolveList_from reg fuel ih comp.dependencies.components st x hx
        · subst hx
          right
          show (lookupReg reg.components x).isSome = true
          rw [hl]
          rfl

/-- The closure property: every registry-present dependency of a resolved
component is itself resolved. -/
def Closed (reg : ComponentRegistry) (st : ResolveState) : Prop :=
  ∀ id comp, id ∈ st.resolved → lookupReg reg.components id = some comp →
    ∀ d ∈ comp.dependencies.components, presentIn reg d → d ∈ st.resolved

theorem not_present_eq_none (reg : ComponentRegistry) (d : String)
    (hp : ¬ presentIn reg d) : lookupReg reg.components d = Option.none := by
  cases hcase : lookupReg reg.components d with
  | none => rfl
  | some v =>
    exact absurd (by show (lookupReg reg.components d).isSome = true; rw [hcase]; rfl) hp

/-- Folding `resolveComp` over a list preserves closure and resolves every
registry-present element of the list, given that single calls preserve
closure at ranks below the fuel. -/
theorem resolveList_closed (reg : ComponentRegistry) (rank : String → Nat) (fuel : Nat)
    (hstep : ∀ cid st, rank cid < fuel → Closed reg st →
      Closed reg (resolveComp reg fuel st cid)) :
    ∀ (l : List String) (st : ResolveState),
      (∀ d ∈ l, presentIn reg d → rank d < fuel) →
      Closed reg st →
      Closed reg (l.foldl (resolveComp reg fuel) st)
      ∧ ∀ d ∈ l, presentIn reg d → d ∈ (l.foldl (resolveComp reg fuel) st).resolved := by
  intro l
  induction l with
  | nil =>
    intro st _ hC
    refine ⟨hC, ?_⟩
    intro d hd
    exact absurd hd (List.not_mem_nil d)
  | cons d ds ih =>
    intro st hl hC
    rw [List.foldl_cons]
    have hst' : Closed reg (resolveComp reg fuel st d) := by
      by_cases hp : presentIn reg d
      · exact hstep d st (hl d (List.mem_cons_self d ds) hp) hC
      · rw [resolveComp_absent reg fuel st d (not_present_eq_none reg d hp)]
        exact hC
    have hrest := ih (resolveComp reg fuel st d)
      (fun x hx hpx => hl x (List.mem_cons_of_mem d hx) hpx) hst'
    refine ⟨hrest.1, ?_⟩
    intro x hx hpx
    rcases List.mem_cons.mp hx with hx | hx
    · subst hx
      have hfuel : 0 < fuel :=
        Nat.lt_of_le_of_lt (Nat.zero_le _) (hl x (List.mem_cons_self x ds) hpx)
    
      obtain ⟨fuel', rfl⟩ : ∃ f, fuel = f + 1 :=
        ⟨fuel - 1, (Nat.succ_pred_eq_of_pos hfuel).symm⟩
      have hd1 : x ∈ (resolveComp reg (fuel' + 1) st x).resolved :=
        resolveComp_adds reg fuel' st x hpx
      exact foldl_pres (fun s => x ∈ s.resolved) (resolveComp reg (fuel' + 1))
        (fun s c h => resolveComp_mono reg (fuel' + 1) s c x h) ds _ hd1
    · exact hrest.2 x hx hpx

/-- A `resolveComp` call at sufficient fuel preserves the closure property
(induction on fuel, using the DAG rank to bound the dependency calls). -/
theorem resolveComp_closed (reg : ComponentRegistry) (rank : String → Nat)
    (hR : RankOk reg rank) :
    ∀ (fuel : Nat) (cid : String) (st : ResolveState),
      rank cid < fuel → Closed reg st → Closed reg (resolveComp reg fuel st cid) := by
  intro fuel
  induction fuel with
  | zero =>
    intro cid st h
    exact absurd h (Nat.not_lt_zero _)
  | succ fuel ih =>
    intro cid st hrank hC
    rw [resolveComp_succ]
    by_cases hv : st.resolved.contains cid
    · rw [if_pos hv]; exact hC
    · rw [if_neg hv]
      cases hl : lookupReg reg.components cid with
      | none => exact hC
      | some comp =>
        have hpairmem : (cid, comp) ∈ reg.components := lookupReg_mem _ _ _ hl
        have hdeps : ∀ d ∈ comp.dependencies.components, presentIn reg d → rank d < fuel := by
          intro d hd hp
          have h1 : rank d < rank cid := hR (cid, comp) hpairmem d hd hp
          omega
        have hfold := resolveList_closed reg rank fuel ih comp.dependencies.components st hdeps hC
        intro id comp' hid hlook d hd hp
        have hsub : ∀ y : String,
            y ∈ (comp.dependencies.components.foldl (resolveComp reg fuel) st).resolved →
            y ∈ (mergeComp cid comp
              (comp.dependencies.components.foldl (resolveComp reg fuel) st)).resolved := by
          intro y hy
          exact (mem_insertIfNew_iff _ _ _).mpr (Or.inl hy)
        rcases (mem_insertIfNew_iff _ _ _).mp hid with hid' | hid'
        · exact hsub d (hfold.1 id comp' hid' hlook d hd hp)
        · subst hid'
          rw [hl] at hlook
          injection hlook with he
          subst he
          exact hsub d (hfold.2 d hd hp)

/-- Every `resolveComp` call keeps the three accumulators duplicate-free. -/
theorem resolveComp_nodup (reg : ComponentRegistry) :
    ∀ (fuel : Nat) (st : ResolveState) (cid : String),
      st.resolved.Nodup ∧ st.utilities.Nodup ∧ st.files.Nodup →
      (resolveComp reg fuel st cid).resolved.Nodup
        ∧ (resolveComp reg fuel st cid).utilities.Nodup
        ∧ (resolveComp reg fuel st cid).files.Nodup := by
  intro fuel
  induction fuel with
  | zero => intro st cid h; exact h
  | succ fuel ih =>
    intro st cid h
    rw [resolveComp_succ]
    by_cases hv : st.resolved.contains cid
    · rw [if_pos hv]; exact h
    · rw [if_neg hv]
      cases lookupReg reg.components cid with
      | none => exact h
      | some comp =>
        have h1 := foldl_pres
          (fun s : ResolveState => s.resolved.Nodup ∧ s.utilities.Nodup ∧ s.files.Nodup)
          (resolveComp reg fuel) (fun s c hs => ih s c hs)
          comp.dependencies.components st h
        exact ⟨insertIfNew_nodup _ _ h1.1, addAll_nodup _ _ h1.2.1, addAll_nodup _ _ h1.2.2⟩

theorem present_rank_lt (reg : ComponentRegistry) (rank : String → Nat)
    (hB : RankBound reg rank) (d : String) (hp : presentIn reg d) :
    rank d < reg.components.length := by
  have hk := (lookupReg_isSome_iff reg.components d).mp hp
  obtain ⟨p, hpmem, hpd⟩ := List.mem_map.mp hk
  have hb := hB p hpmem
  rw [hpd] at hb
  exact hb

/-- The resolution state accumulated by `resolveCore` before utility
expansion. -/
def coreState (sel : ComponentSelection) (reg : ComponentRegistry) : ResolveState :=
  (requestedFor sel reg).foldl (resolveComp reg reg.components.length)
    { resolved := [], utilities := [], files := [] }

/-- The utility-expansion fold of `resolveCore`. -/
def coreExpanded (sel : ComponentSelection) (reg : ComponentRegistry) :
    List String × List String :=
  (coreState sel reg).utilities.foldl
    (fun (acc : List String × List String) utilId =>
      match lookupReg reg.utilities utilId with
      | Option.none => acc
      | some u => (addAll acc.1 u.files, addAll acc.2 u.npm))
    ((coreState sel reg).files, [])

theorem resolveCore_eq (sel : ComponentSelection) (reg : ComponentRegistry) :
    resolveCore sel reg
      = { components := (coreState sel reg).resolved
        , utilities := (coreState sel reg).utilities
        , files := (coreExpanded sel reg).1
        , npmPackages := (coreExpanded sel reg).2 } := rfl

theorem resolveDependencies_ne_none (sel : ComponentSelection) (reg : ComponentRegistry)
    (h : sel.mode ≠ ComponentSelectionMode.none) :
    resolveDependencies sel reg = resolveCore sel reg := by
  unfold resolveDependencies
  cases hm : sel.mode with
  | none => exact absurd hm h
  | categories => rfl
  | individual => rfl
  | all => rfl

theorem init_closed (reg : ComponentRegistry) :
    Closed reg { resolved := [], utilities := [], files := [] } := by
  intro id comp hid
  exact absurd hid (List.not_mem_nil id)

/-- The two facts about `coreState` used below: it is closed under
registry-present dependencies, and it contains every registry-present
requested component. -/
theorem coreState_facts (reg : ComponentRegistry) (rank : String → Nat)
    (hR : RankOk reg rank) (hB : RankBound reg rank) (sel : ComponentSelection) :
    Closed reg (coreState sel reg)
    ∧ ∀ d ∈ requestedFor sel reg, presentIn reg d → d ∈ (coreState sel reg).resolved :=
  resolveList_closed reg rank reg.components.length
    (resolveComp_closed reg rank hR reg.components.length)
    (requestedFor sel reg)
    { resolved := [], utilities := [], files := [] }
    (fun d _ hp => present_rank_lt reg rank hB d hp)
    (init_closed reg)

/-! ## Claim C6: resolver mode coverage -/

/-- C6: for every (DAG-ranked) registry, resolving mode `none` yields four
empty collections via the early return, and resolving mode `all` yields a
resolved component set equal to the full component id set of the registry. -/
theorem c6_theorem (reg : ComponentRegistry) (rank : String → Nat)
    (hR : RankOk reg rank) (hB : RankBound reg rank) :
    (∀ sel, sel.mode = ComponentSelectionMode.none →
        resolveDependencies sel reg
          = { components := [], utilities := [], files := [], npmPackages := [] })
    ∧ (∀ sel, sel.mode = ComponentSelectionMode.all →
        ∀ k, k ∈ (resolveDependencies sel reg).components
          ↔ k ∈ reg.components.map (fun e => e.1)) := by
  constructor
  · intro sel hm
    unfold resolveDependencies
    rw [hm]
  · intro sel hm k
    rw [resolveDependencies_ne_none sel reg
      (by rw [hm]; exact fun hcon => ComponentSelectionMode.noConfusion hcon)]
    rw [resolveCore_eq]
    show k ∈ (coreState sel reg).resolved ↔ _
    constructor
    · intro hk
      rcases resolveList_from reg reg.components.length
        (resolveComp_from reg reg.components.length) (requestedFor sel reg) _ k hk with h | h
      · exact absurd h (List.not_mem_nil k)
      · exact (lookupReg_isSome_iff _ _).mp h
    · intro hk
      have hpres : presentIn reg k := (lookupReg_isSome_iff _ _).mpr hk
      have hreq : k ∈ requestedFor sel reg := by
        unfold requestedFor
        rw [hm]
        exact hk
      exact (coreState_facts reg rank hR hB sel).2 k hreq hpres

/-- The diamond-shaped concrete registry: `button` and `card` both depend on
`icon`, which pulls in the `cn` utility bundle. -/
def regDiamond : ComponentRegistry :=
  { version := "1.0.0"
  , categories := [("ui", { name := "UI", description := "UI components" })]
  , utilities :=
      [("cn", { name := "cn", description := "class name helper"
              , files := ["src/lib/cn.ts"], npm := ["clsx"] })]
  , components :=
      [ ("icon", { name := "Icon", category := "ui"
                 , files := ["src/components/ui/Icon.astro"]
                 , dependencies := { utilities := ["cn"], components := [] }
                 , premium := false })
      , ("button", { name := "Button", category := "ui"
                   , files := ["src/components/ui/Button.astro"]
                   , dependencies := { utilities := [], components := ["icon"] }
                   , premium := false })
      , ("card", { name := "Card", category := "ui"
                 , files := ["src/components/ui/Card.astro"]
                 , dependencies := { utilities := [], components := ["icon"] }
                 , premium := false }) ] }

def rankDiamond : String → Nat := fun s => if s = "icon" then 0 else 1

/-- C6 witness: the mode-coverage theorem applied to the concrete diamond
registry. -/
theorem c6_witness :
    resolveDependencies
        { mode := ComponentSelectionMode.none
        , categories := Option.none, components := Option.none } regDiamond
      = { components := [], utilities := [], files := [], npmPackages := [] }
    ∧ ("card" ∈ (resolveDependencies
          { mode := ComponentSelectionMode.all
          , categories := Option.none, components := Option.none } regDiamond).components
        ↔ "card" ∈ regDiamond.components.map (fun e => e.1)) :=
  ⟨(c6_theorem regDiamond rankDiamond (by decide) (by decide)).1 _ rfl
  , (c6_theorem regDiamond rankDiamond (by decide) (by decide)).2 _ rfl "card"⟩

/-! ## Claim C7: diamond-dependency deduplication -/

/-- The component `c1` is present in the registry and declares `c` among its
component dependencies. -/
def dependsOnB (reg : ComponentRegistry) (c1 c : String) : Bool :=
  match lookupReg reg.components c1 with
  | Option.none => false
  | some comp => comp.dependencies.components.contains c

/-- Every file of every resolved component has been collected into the
state's file list. The source adds a component's files in the very merge
that marks it resolved, and the file list only ever grows, so this closure
needs no rank or fuel hypotheses. -/
def FilesClosed (reg : ComponentRegistry) (st : ResolveState) : Prop :=
  ∀ id comp, id ∈ st.resolved → lookupReg reg.components id = some comp →
    ∀ fl ∈ comp.files, fl ∈ st.files

theorem mem_addAll_of_mem_arg : ∀ (xs acc : List String) (x : String),
    x ∈ xs → x ∈ addAll acc xs
  | [], _, _, h => absurd h (List.not_mem_nil _)
  | y :: ys, acc, x, h => by
    show x ∈ addAll (insertIfNew acc y) ys
    rcases List.mem_cons.mp h with h | h
    · subst h
      exact mem_addAll_of_mem _ ys x ((mem_insertIfNew_iff acc x x).mpr (Or.inr rfl))
    · exact mem_addAll_of_mem_arg ys (insertIfNew acc y) x h

theorem resolveComp_filesClosed (reg : ComponentRegistry) :
    ∀ (fuel : Nat) (st : ResolveState) (cid : String),
      FilesClosed reg st → FilesClosed reg (resolveComp reg fuel st cid) := by
  intro fuel
  induction fuel with
  | zero => intro st cid h; exact h
  | succ fuel ih =>
    intro st cid h
    rw [resolveComp_succ]
    by_cases hv : st.resolved.contains cid
    · rw [if_pos hv]; exact h
    · rw [if_neg hv]
      cases hl : lookupReg reg.components cid with
      | none => exact h
      | some comp =>
        have hfold : FilesClosed reg
            (comp.dependencies.components.foldl (resolveComp reg fuel) st) :=
          foldl_pres (FilesClosed reg) (resolveComp reg fuel) (fun s c hs => ih s c hs)
            comp.dependencies.components st h
        intro id comp' hid hlook fl hfl
        rcases (mem_insertIfNew_iff _ _ _).mp hid with hid' | hid'
        · exact mem_addAll_of_mem _ _ fl (hfold id comp' hid' hlook fl hfl)
        · subst hid'
          rw [hl] at hlook
          injection hlook with he
          subst he
          exact mem_addAll_of_mem_arg _ _ fl hfl

theorem coreState_filesClosed (reg : ComponentRegistry) (sel : ComponentSelection) :
    FilesClosed reg (coreState sel reg) :=
  foldl_pres (FilesClosed reg) (resolveComp reg reg.components.length)
    (fun s c hs => resolveComp_filesClosed reg reg.components.length s c hs)
    (requestedFor sel reg) { resolved := [], utilities := [], files := [] }
    (fun id _comp hid => absurd hid (List.not_mem_nil id))

theorem coreExpanded_files_mono (reg : ComponentRegistry) (sel : ComponentSelection)
    (fl : String) (h : fl ∈ (coreState sel reg).files) :
    fl ∈ (coreExpanded sel reg).1 := by
  refine foldl_pres (fun acc : List String × List String => fl ∈ acc.1)
    (fun acc utilId =>
      match lookupReg reg.utilities utilId with
      | Option.none => acc
      | some u => (addAll acc.1 u.files, addAll acc.2 u.npm))
    ?_ (coreState sel reg).utilities ((coreState sel reg).files, []) h
  intro acc utilId hacc
  show fl ∈ (match lookupReg reg.utilities utilId with
    | Option.none => acc
    | some u => (addAll acc.1 u.files, addAll acc.2 u.npm)).1
  cases lookupReg reg.utilities utilId with
  | none => exact hacc
  | some u => exact mem_addAll_of_mem _ _ fl hacc

/-- C7: for every DAG-ranked registry and every selection, the resolved
component list and resolved file list are duplicate-free; a registry-present
component depended on by two requested components appears exactly once in
the resolved component list, and each of that component's registry files
appears exactly once in the resolved file list; and a requested id absent
from the registry contributes nothing — resolution returns four empty
collections without raising. -/
theorem c7_theorem (reg : ComponentRegistry) (rank : String → Nat)
    (hR : RankOk reg rank) (hB : RankBound reg rank) (sel : ComponentSelection) :
    (resolveDependencies sel reg).components.Nodup
    ∧ (resolveDependencies sel reg).files.Nodup
    ∧ (∀ c1 c2 c,
        c1 ∈ requestedFor sel reg → c2 ∈ requestedFor sel reg →
        dependsOnB reg c1 c = true → dependsOnB reg c2 c = true →
        presentIn reg c →
        (resolveDependencies sel reg).components.count c = 1
        ∧ ∀ compc, lookupReg reg.components c = some compc →
            ∀ fl ∈ compc.files, (resolveDependencies sel reg).files.count fl = 1)
    ∧ (∀ badId, lookupReg reg.components badId = Option.none →
        resolveDependencies
          { mode := ComponentSelectionMode.individual
          , categories := Option.none
          , components := some [badId] } reg
          = { components := [], utilities := [], files := [], npmPackages := [] }) := by
  have hst : (coreState sel reg).resolved.Nodup ∧ (coreState sel reg).utilities.Nodup
      ∧ (coreState sel reg).files.Nodup :=
    foldl_pres
      (fun s : ResolveState => s.resolved.Nodup ∧ s.utilities.Nodup ∧ s.files.Nodup)
      (resolveComp reg reg.components.length)
      (fun s c hs => resolveComp_nodup reg reg.components.length s c hs)
      (requestedFor sel reg) { resolved := [], utilities := [], files := [] }
      ⟨List.nodup_nil, List.nodup_nil, List.nodup_nil⟩
  have hexp : (coreExpanded sel reg).1.Nodup ∧ (coreExpanded sel reg).2.Nodup := by
    refine foldl_pres
      (fun acc : List String × List String => acc.1.Nodup ∧ acc.2.Nodup)
      (fun acc utilId =>
        match lookupReg reg.utilities utilId with
        | Option.none => acc
        | some u => (addAll acc.1 u.files, addAll acc.2 u.npm))
      ?_ (coreState sel reg).utilities ((coreState sel reg).files, [])
      ⟨hst.2.2, List.nodup_nil⟩
    intro acc utilId hacc
    show (match lookupReg reg.utilities utilId with
          | Option.none => acc
          | some u => (addAll acc.1 u.files, addAll acc.2 u.npm)).1.Nodup
      ∧ (match lookupReg reg.utilities utilId with
          | Option.none => acc
          | some u => (addAll acc.1 u.files, addAll acc.2 u.npm)).2.Nodup
    cases lookupReg reg.utilities utilId with
    | none => exact hacc
    | some u => exact ⟨addAll_nodup _ _ hacc.1, addAll_nodup _ _ hacc.2⟩
  by_cases hm : sel.mode = ComponentSelectionMode.none
  · refine ⟨?_, ?_, ?_, ?_⟩
    · unfold resolveDependencies
      rw [hm]
      exact List.nodup_nil
    · unfold resolveDependencies
      rw [hm]
      exact List.nodup_nil
    · intro c1 c2 c h1 h2
      unfold requestedFor at h1
      rw [hm] at h1
      exact absurd h1 (List.not_mem_nil c1)
    · intro badId hbad
      rw [resolveDependencies_ne_none _ _
        (fun hcon => ComponentSelectionMode.noConfusion hcon)]
      rw [resolveCore_eq]
      have hcs : coreState
          { mode := ComponentSelectionMode.individual
          , categories := Option.none, components := some [badId] } reg
          = { resolved := [], utilities := [], files := [] } := by
        show List.foldl _ _ _ = _
        rw [show requestedFor
            { mode := ComponentSelectionMode.individual
            , categories := Option.none, components := some [badId] } reg
          = [badId] from rfl]
        rw [List.foldl_cons, List.foldl_nil]
        exact resolveComp_absent reg _ _ _ hbad
      have hce : coreExpanded
          { mode := ComponentSelectionMode.individual
          , categories := Option.none, components := some [badId] } reg = ([], []) := by
        unfold coreExpanded
        rw [hcs]
        rfl
      rw [hcs, hce]
  · rw [resolveDependencies_ne_none sel reg hm, resolveCore_eq]
    refine ⟨hst.1, hexp.1, ?_, ?_⟩
    · intro c1 c2 c h1 _h2 hdep1 _hdep2 hpc
      unfold dependsOnB at hdep1
      cases hl1 : lookupReg reg.components c1 with
      | none =>
        rw [hl1] at hdep1
        exact Bool.noConfusion hdep1
      | some comp1 =>
        rw [hl1] at hdep1
        have hcdep : c ∈ comp1.dependencies.components := (contains_iff_mem _ _).mp hdep1
        have hp1 : presentIn reg c1 := by
          show (lookupReg reg.components c1).isSome = true
          rw [hl1]
          rfl
        have hfacts := coreState_facts reg rank hR hB sel
        have hc1mem : c1 ∈ (coreState sel reg).resolved := hfacts.2 c1 h1 hp1
        have hcmem : c ∈ (coreState sel reg).resolved :=
          hfacts.1 c1 comp1 hc1mem hl1 c hcdep hpc
        constructor
        · show ((coreState sel reg).resolved).count c = 1
          have hle := List.nodup_iff_count_le_one.mp hst.1 c
          have hpos := List.count_pos_iff.mpr hcmem
          omega
        · intro compc hlc fl hfl
          have hflmem : fl ∈ (coreState sel reg).files :=
            coreState_filesClosed reg sel c compc hcmem hlc fl hfl
          have hflexp : fl ∈ (coreExpanded sel reg).1 :=
            coreExpanded_files_mono reg sel fl hflmem
          show ((coreExpanded sel reg).1).count fl = 1
          have hle := List.nodup_iff_count_le_one.mp hexp.1 fl
          have hpos := List.count_pos_iff.mpr hflexp
          omega
    · intro badId hbad
      rw [resolveDependencies_ne_none _ _
        (fun hcon => ComponentSelectionMode.noConfusion hcon)]
      rw [resolveCore_eq]
      have hcs : coreState
          { mode := ComponentSelectionMode.individual
          , categories := Option.none, components := some [badId] } reg
          = { resolved := [], utilities := [], files := [] } := by
        show List.foldl _ _ _ = _
        rw [show requestedFor
            { mode := ComponentSelectionMode.individual
            , categories := Option.none, components := some [badId] } reg
          = [badId] from rfl]
        rw [List.foldl_cons, List.foldl_nil]
        exact resolveComp_absent reg _ _ _ hbad
      have hce : coreExpanded
          { mode := ComponentSelectionMode.individual
          , categories := Option.none, components := some [badId] } reg = ([], []) := by
        unfold coreExpanded
        rw [hcs]
        rfl
      rw [hcs, hce]

/-- C7 witness: the deduplication theorem applied to the diamond registry
with both `button` and `card` requested: their shared dependency `icon` is
counted once in the component list, and its file is counted once in the
file list. -/
theorem c7_witness :
    (resolveDependencies
        { mode := ComponentSelectionMode.individual
        , categories := Option.none
        , components := some ["button", "card"] } regDiamond).components.count "icon" = 1
    ∧ (resolveDependencies
        { mode := ComponentSelectionMode.individual
        , categories := Option.none
        , components := some ["button", "card"] } regDiamond).files.count
        "src/components/ui/Icon.astro" = 1 :=
  have h := (c7_theorem regDiamond rankDiamond (by decide) (by decide) _).2.2.1
    "button" "card" "icon" (by decide) (by decide) (by decide) (by decide) (by decide)
  ⟨h.1, h.2 _ rfl "src/components/ui/Icon.astro" (by decide)⟩

/-! ## Claim C8: missing-anchor tolerance -/

theorem pagePath_data (p : String) :
    (pagePath p).data = ("src/pages/".data ++ p.data) ++ ".astro".data := rfl

theorem pagePath_ne_routesBase (p : String) : pagePath p ≠ routesPathBase := by
  intro h
  have hd : (("src/pages/".data ++ p.data) ++ ".astro".data) = routesPathBase.data := by
    rw [← pagePath_data]
    exact congrArg String.data h
  have hlen : ("src/pages/".data).length = 10 := by decide
  have h4 : (("src/pages/".data ++ p.data) ++ ".astro".data)[4]? = some 'p' := by
    rw [List.getElem?_append_left (by rw [List.length_append, hlen]; omega)]
    rw [List.getElem?_append_left (by rw [hlen]; omega)]
    decide
  rw [hd] at h4
  exact absurd h4 (by decide)

/-- When the anchor is absent from the content, the content-level base-route
mutation is skipped. -/
theorem addBaseRouteText_noAnchor (c q : String)
    (h : hasSub c routesAnchor = false) :
    addBaseRouteText c q = Option.none := by
  have hf : findSub? routesAnchor.data c.data = Option.none := by
    unfold hasSub at h
    cases hf : findSub? routesAnchor.data c.data with
    | none => rfl
    | some i =>
      rw [hf] at h
      exact Bool.noConfusion h
  unfold addBaseRouteText
  by_cases hdup : hasSub c (toRouteId q ++ ":") = true
  · simp [hdup]
  · simp only [hdup, if_false, hf]
    rfl

/-- When the route-table file is absent, or its content lacks the anchor,
`addBaseRouteEntry` leaves the tree unchanged. -/
theorem addBaseRouteEntry_skip_noAnchor (fs : FS) (q : String)
    (h : ∀ c, fsGet? fs routesPathBase = some c → hasSub c routesAnchor = false) :
    addBaseRouteEntry fs q = fs := by
  unfold addBaseRouteEntry
  cases hg : fsGet? fs routesPathBase with
  | none => rfl
  | some c =>
    show (match addBaseRouteText c q with
          | Option.none => fs
          | some c2 => fsWrite fs routesPathBase c2) = fs
    rw [addBaseRouteText_noAnchor c q (h c hg)]

theorem genStepBase_false (layout : PageLayout) (acc : FS × List String) (q : String) :
    genStepBase layout false acc q
      = (addBaseRouteEntry (fsWrite acc.1 (pagePath q) (generatePageTemplate q layout)) q,
         acc.2 ++ [pagePath q]) := rfl

/-- The facts about the non-i18n page-generation loop needed for claim C8:
the base route table keeps the initial content, every processed page file is
present, every processed page path is reported, and both tree membership and
the report list grow monotonically. -/
theorem genFoldBase_facts (fs0 : FS) (layout : PageLayout)
    (hanchor : ∀ c, fsGet? fs0 routesPathBase = some c → hasSub c routesAnchor = false) :
    ∀ (pages : List String) (acc : FS × List String),
      fsGet? acc.1 routesPathBase = fsGet? fs0 routesPathBase →
      (fsGet? (pages.foldl (genStepBase layout false) acc).1 routesPathBase
          = fsGet? fs0 routesPathBase)
      ∧ (∀ p ∈ pages,
          fsHas (pages.foldl (genStepBase layout false) acc).1 (pagePath p) = true
          ∧ pagePath p ∈ (pages.foldl (genStepBase layout false) acc).2)
      ∧ (∀ x, fsHas acc.1 x = true →
          fsHas (pages.foldl (genStepBase layout false) acc).1 x = true)
      ∧ (∀ y, y ∈ acc.2 → y ∈ (pages.foldl (genStepBase layout false) acc).2) := by
  intro pages
  induction pages with
  | nil =>
    intro acc hacc
    exact ⟨hacc, fun p hp => absurd hp (List.not_mem_nil p), fun x hx => hx, fun y hy => hy⟩
  | cons q qs ih =>
    intro acc hacc
    rw [List.foldl_cons, genStepBase_false]
    have hw : fsGet? (fsWrite acc.1 (pagePath q) (generatePageTemplate q layout))
        routesPathBase = fsGet? fs0 routesPathBase := by
      rw [fsGet?_write_ne _ _ _ _ (fun he => pagePath_ne_routesBase q he.symm)]
      exact hacc
    have hskip : addBaseRouteEntry
        (fsWrite acc.1 (pagePath q) (generatePageTemplate q layout)) q
        = fsWrite acc.1 (pagePath q) (generatePageTemplate q layout) :=
      addBaseRouteEntry_skip_noAnchor _ q (fun c hc => hanchor c (hw ▸ hc))
    rw [hskip]
    have hacc' : fsGet? (fsWrite acc.1 (pagePath q) (generatePageTemplate q layout))
        routesPathBase = fsGet? fs0 routesPathBase := hw
    have hrest := ih (fsWrite acc.1 (pagePath q) (generatePageTemplate q layout),
      acc.2 ++ [pagePath q]) hacc'
    refine ⟨hrest.1, ?_, ?_, ?_⟩
    · intro p hp
      rcases List.mem_cons.mp hp with hp | hp
      · subst hp
        constructor
        · refine hrest.2.2.1 (pagePath p) ?_
          show fsHas (fsWrite acc.1 (pagePath p) (generatePageTemplate p layout)) (pagePath p) = true
          rw [show fsHas (fsWrite acc.1 (pagePath p) (generatePageTemplate p layout)) (pagePath p)
              = (fsGet? (fsWrite acc.1 (pagePath p) (generatePageTemplate p layout)) (pagePath p)).isSome from rfl]
          rw [fsGet?_write_self]
          rfl
        · refine hrest.2.2.2 (pagePath p) ?_
          exact List.mem_append_right _ (List.mem_singleton.mpr rfl)
      · exact hrest.2.1 p hp
    · intro x hx
      refine hrest.2.2.1 x ?_
      exact (fsHas_write _ _ _ _).mpr (Or.inr hx)
    · intro y hy
      exact hrest.2.2.2 y (List.mem_append_left _ hy)

/-- C8: in a non-i18n page-generation run, when the base route-table file is
missing, or present without the anchor substring marking the insertion
point, the splice is skipped without error: the route-table file is left
exactly as it was, while every requested page file is still created and
reported in the returned list of generated paths. -/
theorem c8_theorem (fs : FS) (pages : List String) (layout : PageLayout) (p : String)
    (hanchor : ∀ c, fsGet? fs routesPathBase = some c → hasSub c routesAnchor = false)
    (hp : p ∈ pages) :
    fsGet? (generatePages fs pages layout false).1 routesPathBase
      = fsGet? fs routesPathBase
    ∧ fsHas (generatePages fs pages layout false).1 (pagePath p) = true
    ∧ pagePath p ∈ (generatePages fs pages layout false).2 := by
  have hne : pages.isEmpty = false := by
    cases pages with
    | nil => exact absurd hp (List.not_mem_nil p)
    | cons a l => rfl
  have heq : generatePages fs pages layout false
      = pages.foldl (genStepBase layout false) (fs, []) := by
    unfold generatePages
    rw [hne]
    rfl
  rw [heq]
  have hfacts := genFoldBase_facts fs layout hanchor pages (fs, []) rfl
  exact ⟨hfacts.1, (hfacts.2.1 p hp).1, (hfacts.2.1 p hp).2⟩

/-- C8 witness: page generation over a tree with no route-table file at all
still creates and reports the page file, and the (absent) route table stays
absent. -/
theorem c8_witness :
    fsGet? (generatePages [] ["faq"] PageLayout.page false).1 routesPathBase
      = fsGet? ([] : FS) routesPathBase
    ∧ fsHas (generatePages [] ["faq"] PageLayout.page false).1 (pagePath "faq") = true
    ∧ pagePath "faq" ∈ (generatePages [] ["faq"] PageLayout.page false).2 :=
  c8_theorem [] ["faq"] PageLayout.page "faq" (fun c hc => Option.noConfusion hc) (by decide)

/-! ## Claim C10: output invariant of the page-name parser -/

/-- No two consecutive hyphens. -/
def noDoubleHyphen : List Char → Bool
  | a :: b :: rest => !(a = '-' && b = '-') && noDoubleHyphen (b :: rest)
  | _ => true

theorem sanitizeChar_slug (c : Char) : isSlugChar (sanitizeChar c) = true := by
  unfold sanitizeChar
  by_cases h : isSlugChar c = true
  · rw [if_pos h]; exact h
  · rw [if_neg h]; decide

theorem squash_head : ∀ l : List Char, (squashHyphens l).head? = l.head?
  | [] => rfl
  | [_] => rfl
  | a :: b :: rest => by
    show (if a = '-' && b = '-' then squashHyphens (b :: rest)
          else a :: squashHyphens (b :: rest)).head? = some a
    by_cases h : (a = '-' && b = '-') = true
    · rw [if_pos h]
      rw [squash_head (b :: rest)]
      rcases Bool.and_eq_true_iff.mp h with ⟨h1, h2⟩
      rw [show a = '-' from of_decide_eq_true h1, show b = '-' from of_decide_eq_true h2]
      rfl
    · rw [if_neg h]
      rfl

theorem squash_subset : ∀ (l : List Char) (c : Char), c ∈ squashHyphens l → c ∈ l
  | [], _, h => h
  | [x], _, h => h
  | a :: b :: rest, c, h => by
    rw [show squashHyphens (a :: b :: rest)
        = (if a = '-' && b = '-' then squashHyphens (b :: rest)
           else a :: squashHyphens (b :: rest)) from rfl] at h
    by_cases hc : (a = '-' && b = '-') = true
    · rw [if_pos hc] at h
      exact List.mem_cons_of_mem a (squash_subset (b :: rest) c h)
    · rw [if_neg hc] at h
      rcases List.mem_cons.mp h with h | h
      · exact h ▸ List.mem_cons_self a (b :: rest)
      · exact List.mem_cons_of_mem a (squash_subset (b :: rest) c h)

theorem squash_noDouble : ∀ l : List Char, noDoubleHyphen (squashHyphens l) = true
  | [] => rfl
  | [_] => rfl
  | a :: b :: rest => by
    show noDoubleHyphen (if a = '-' && b = '-' then squashHyphens (b :: rest)
          else a :: squashHyphens (b :: rest)) = true
    by_cases h : (a = '-' && b = '-') = true
    · rw [if_pos h]
      exact squash_noDouble (b :: rest)
    · rw [if_neg h]
      have hh := squash_head (b :: rest)
      cases hs : squashHyphens (b :: rest) with
      | nil => rfl
      | cons x xs =>
        rw [hs] at hh
        have hx : x = b := by
          have : some x = some b := hh
          injection this
        show (!(a = '-' && x = '-') && noDoubleHyphen (x :: xs)) = true
        have h2 : noDoubleHyphen (x :: xs) = true := hs ▸ squash_noDouble (b :: rest)
        rw [h2, Bool.and_true]
        subst hx
        rw [Bool.not_eq_true']
        exact Bool.of_not_eq_true h

theorem noDouble_tail : ∀ (a : Char) (t : List Char),
    noDoubleHyphen (a :: t) = true → noDoubleHyphen t = true
  | _, [], _ => rfl
  | _, _ :: _, h => (Bool.and_eq_true_iff.mp h).2

theorem noDouble_of_prefix : ∀ (t l : List Char), t <+: l →
    noDoubleHyphen l = true → noDoubleHyphen t = true
  | [], _, _, _ => rfl
  | [_], _, _, _ => rfl
  | a :: b :: ts, l, hpre, hl => by
    obtain ⟨r, hr⟩ := hpre
    subst hr
    have hl' : (!(a = '-' && b = '-') && noDoubleHyphen (b :: (ts ++ r))) = true := hl
    rcases Bool.and_eq_true_iff.mp hl' with ⟨h1, h2⟩
    show (!(a = '-' && b = '-') && noDoubleHyphen (b :: ts)) = true
    rw [h1, Bool.true_and]
    exact noDouble_of_prefix (b :: ts) (b :: (ts ++ r)) ⟨r, rfl⟩ h2

theorem stripLead_subset (l : List Char) : ∀ c ∈ stripLeadHyphen l, c ∈ l := by
  cases l with
  | nil => exact fun c hc => hc
  | cons x t =>
    intro c hc
    rw [show stripLeadHyphen (x :: t) = if x = '-' then t else x :: t from rfl] at hc
    by_cases hx : x = '-'
    · rw [if_pos hx] at hc
      exact List.mem_cons_of_mem x hc
    · rw [if_neg hx] at hc
      exact hc

theorem stripLead_noDouble (l : List Char) (h : noDoubleHyphen l = true) :
    noDoubleHyphen (stripLeadHyphen l) = true := by
  cases l with
  | nil => exact h
  | cons x t =>
    show noDoubleHyphen (if x = '-' then t else x :: t) = true
    by_cases hx : x = '-'
    · rw [if_pos hx]
      exact noDouble_tail x t h
    · rw [if_neg hx]
      exact h

theorem stripLead_head (l : List Char) (h : noDoubleHyphen l = true) :
    (stripLeadHyphen l).head? ≠ some '-' := by
  cases l with
  | nil => exact fun hc => Option.noConfusion hc
  | cons x t =>
    show (if x = '-' then t else x :: t).head? ≠ some '-'
    by_cases hx : x = '-'
    · rw [if_pos hx]
      cases t with
      | nil => exact fun hc => Option.noConfusion hc
      | cons y ys =>
        intro hc
        have hy : y = '-' := by
          have h2 : some y = some '-' := hc
          injection h2
        subst hx
        subst hy
        have h3 := (Bool.and_eq_true_iff.mp h).1
        simp at h3
    · rw [if_neg hx]
      intro hc
      have h2 : x = '-' := by
        have h3 : some x = some '-' := hc
        injection h3
      exact hx h2

theorem head?_dropLast (l : List Char) :
    l.dropLast.head? = l.head? ∨ l.dropLast.head? = Option.none := by
  cases l with
  | nil => exact Or.inr rfl
  | cons a t =>
    cases t with
    | nil => exact Or.inr rfl
    | cons b r => exact Or.inl rfl

theorem dropLast_last_ne : ∀ (l : List Char), noDoubleHyphen l = true →
    l.getLast? = some '-' → l.dropLast.getLast? ≠ some '-'
  | [], _, hlast => absurd hlast (by decide)
  | [_], _, _ => fun hc => Option.noConfusion hc
  | a :: b :: rest, h, hlast => by
    cases rest with
    | nil =>
      intro hc
      have hb : b = '-' := by
        rw [List.getLast?_cons_cons, List.getLast?_singleton] at hlast
        injection hlast
      have ha : a = '-' := by
        have h2 : some a = some '-' := hc
        injection h2
      subst ha
      subst hb
      have h3 := (Bool.and_eq_true_iff.mp h).1
      simp at h3
    | cons r rs =>
      have h2 : noDoubleHyphen (b :: r :: rs) = true := noDouble_tail a _ h
      have hlast2 : (b :: r :: rs).getLast? = some '-' := by
        rw [List.getLast?_cons_cons] at hlast
        exact hlast
      have hrec := dropLast_last_ne (b :: r :: rs) h2 hlast2
      intro hc
      apply hrec
      rw [show (a :: b :: r :: rs : List Char).dropLast
          = a :: b :: (r :: rs).dropLast from rfl] at hc
      rw [List.getLast?_cons_cons] at hc
      exact hc

theorem stripTrail_subset (l : List Char) : ∀ c ∈ stripTrailHyphen l, c ∈ l := by
  unfold stripTrailHyphen
  by_cases hg : l.getLast? = some '-'
  · rw [if_pos hg]
    exact fun c hc => (List.dropLast_prefix l).subset hc
  · rw [if_neg hg]
    exact fun c hc => hc

theorem stripTrail_noDouble (l : List Char) (h : noDoubleHyphen l = true) :
    noDoubleHyphen (stripTrailHyphen l) = true := by
  unfold stripTrailHyphen
  by_cases hg : l.getLast? = some '-'
  · rw [if_pos hg]
    exact noDouble_of_prefix _ l (List.dropLast_prefix l) h
  · rw [if_neg hg]
    exact h

theorem stripTrail_head (l : List Char) (h : l.head? ≠ some '-') :
    (stripTrailHyphen l).head? ≠ some '-' := by
  unfold stripTrailHyphen
  by_cases hg : l.getLast? = some '-'
  · rw [if_pos hg]
    rcases head?_dropLast l with h2 | h2
    · rw [h2]
      exact h
    · rw [h2]
      exact fun hc => Option.noConfusion hc
  · rw [if_neg hg]
    exact h

theorem stripTrail_last (l : List Char) (h : noDoubleHyphen l = true) :
    (stripTrailHyphen l).getLast? ≠ some '-' := by
  unfold stripTrailHyphen
  by_cases hg : l.getLast? = some '-'
  · rw [if_pos hg]
    exact dropLast_last_ne l h hg
  · rw [if_neg hg]
    exact hg

/-- The structural properties of every sanitized slug. -/
theorem slugify_props (m : String) :
    (∀ c ∈ (slugify m).data, isSlugChar c = true)
    ∧ (slugify m).data.head? ≠ some '-'
    ∧ (slugify m).data.getLast? ≠ some '-'
    ∧ noDoubleHyphen (slugify m).data = true := by
  have hdata : (slugify m).data
      = stripTrailHyphen (stripLeadHyphen (squashHyphens (m.data.map sanitizeChar))) := rfl
  have hall0 : ∀ c ∈ m.data.map sanitizeChar, isSlugChar c = true := by
    intro c hc
    obtain ⟨d, _, hd⟩ := List.mem_map.mp hc
    rw [← hd]
    exact sanitizeChar_slug d
  have hall1 : ∀ c ∈ squashHyphens (m.data.map sanitizeChar), isSlugChar c = true :=
    fun c hc => hall0 c (squash_subset _ c hc)
  have hnd1 : noDoubleHyphen (squashHyphens (m.data.map sanitizeChar)) = true :=
    squash_noDouble _
  have hall2 : ∀ c ∈ stripLeadHyphen (squashHyphens (m.data.map sanitizeChar)),
      isSlugChar c = true :=
    fun c hc => hall1 c (stripLead_subset _ c hc)
  have hnd2 : noDoubleHyphen (stripLeadHyphen (squashHyphens (m.data.map sanitizeChar)))
      = true := stripLead_noDouble _ hnd1
  have hh2 : (stripLeadHyphen (squashHyphens (m.data.map sanitizeChar))).head? ≠ some '-' :=
    stripLead_head _ hnd1
  refine ⟨?_, ?_, ?_, ?_⟩
  · rw [hdata]
    exact fun c hc => hall2 c (stripTrail_subset _ c hc)
  · rw [hdata]
    exact stripTrail_head _ hh2
  · rw [hdata]
    exact stripTrail_last _ hnd2
  · rw [hdata]
    exact stripTrail_noDouble _ hnd2

/-- C10: every element of the page-name parser's output is a non-empty
string of lowercase letters, digits and hyphens, without leading or trailing
hyphen, without two consecutive hyphens, and distinct from the reserved
names — the precondition assumed by the route-table mutation engine. -/
theorem c10_theorem (input name : String) (h : name ∈ parsePageNames input) :
    name ≠ ""
    ∧ (∀ c ∈ name.data, isSlugChar c = true)
    ∧ name.data.head? ≠ some '-'
    ∧ name.data.getLast? ≠ some '-'
    ∧ noDoubleHyphen name.data = true
    ∧ name ∉ reservedNames := by
  unfold parsePageNames at h
  by_cases hempty : (trimStr input).data.isEmpty = true
  · rw [if_pos hempty] at h
    exact absurd h (List.not_mem_nil name)
  · rw [if_neg hempty] at h
    obtain ⟨hmem, hfilt⟩ := List.mem_filter.mp h
    obtain ⟨m, _hm, hslug⟩ := List.mem_map.mp hmem
    rcases Bool.and_eq_true_iff.mp hfilt with ⟨hlen, hres⟩
    have hlen' : name.data.length > 0 := of_decide_eq_true hlen
    have hnonempty : name ≠ "" := by
      intro hc
      rw [hc] at hlen'
      exact absurd hlen' (by decide)
    have hres' : name ∉ reservedNames := by
      intro hc
      have h1 : reservedNames.contains name = false := by
        rw [Bool.not_eq_true'] at hres
        exact hres
      rw [(contains_iff_mem reservedNames name).mpr hc] at h1
      exact Bool.noConfusion h1
    obtain ⟨hall, hhead, hlast, hnd⟩ := slugify_props m
    rw [hslug] at hall hhead hlast hnd
    exact ⟨hnonempty, hall, hhead, hlast, hnd, hres'⟩

/-- C10 witness: the parser invariant applied to a concrete input and the
member it produces. -/
theorem c10_witness :
    "about" ≠ ""
    ∧ (∀ c ∈ "about".data, isSlugChar c = true)
    ∧ "about".data.head? ≠ some '-'
    ∧ "about".data.getLast? ≠ some '-'
    ∧ noDoubleHyphen "about".data = true
    ∧ "about" ∉ reservedNames :=
  c10_theorem "  About!  " "about" (by decide)

/-! ## Pipeline lemmas (toward claim C1) -/

theorem fsHas_write_existing (fs : FS) (p c x : String) (hp : fsHas fs p = true) :
    fsHas (fsWrite fs p c) x = fsHas fs x := by
  by_cases hxp : x = p
  · subst hxp
    rw [hp]
    show (fsGet? (fsWrite fs x c) x).isSome = true
    rw [fsGet?_write_self]
    rfl
  · show (fsGet? (fsWrite fs p c) x).isSome = (fsGet? fs x).isSome
    rw [fsGet?_write_ne fs p c x hxp]

/-- The base-route mutation only rewrites an existing file: tree membership
is unchanged. -/
theorem addBaseRouteEntry_dom (fs : FS) (q x : String) :
    fsHas (addBaseRouteEntry fs q) x = fsHas fs x := by
  unfold addBaseRouteEntry
  cases hg : fsGet? fs routesPathBase with
  | none => rfl
  | some c =>
    show fsHas (match addBaseRouteText c q with
        | Option.none => fs
        | some c2 => fsWrite fs routesPathBase c2) x = fsHas fs x
    cases addBaseRouteText c q with
    | none => rfl
    | some c2 =>
      exact fsHas_write_existing fs routesPathBase c2 x
        (by show (fsGet? fs routesPathBase).isSome = true; rw [hg]; rfl)

/-- The translation-key mutation only rewrites an existing file. -/
theorem addTranslationForLocale_dom (fs : FS) (routeId title locale x : String) :
    fsHas (addTranslationForLocale fs routeId title locale) x = fsHas fs x := by
  unfold addTranslationForLocale
  cases hg : fsGet? fs (translationPath locale) with
  | none => rfl
  | some c0 =>
    exact fsHas_write_existing fs (translationPath locale) _ x
      (by show (fsGet? fs (translationPath locale)).isSome = true; rw [hg]; rfl)

theorem addI18nTranslationKeys_dom (fs : FS) (routeId title x : String) :
    fsHas (addI18nTranslationKeys fs routeId title) x = fsHas fs x := by
  show fsHas (addTranslationForLocale (addTranslationForLocale
      (addTranslationForLocale fs routeId title "en") routeId title "es")
      routeId title "fr") x = fsHas fs x
  rw [addTranslationForLocale_dom, addTranslationForLocale_dom, addTranslationForLocale_dom]

/-- The i18n route mutation only rewrites existing files. -/
theorem addI18nRouteEntry_dom (fs : FS) (q x : String) :
    fsHas (addI18nRouteEntry fs q) x = fsHas fs x := by
  unfold addI18nRouteEntry
  cases hg : fsGet? fs routesPathI18n with
  | none => rfl
  | some c =>
    show fsHas (match addI18nRouteText c q with
        | Option.none => fs
        | some c2 =>
          addI18nTranslationKeys (fsWrite fs routesPathI18n c2) (toRouteId q) (toTitle q)) x
      = fsHas fs x
    cases addI18nRouteText c q with
    | none => rfl
    | some c2 =>
      rw [addI18nTranslationKeys_dom]
      exact fsHas_write_existing fs routesPathI18n c2 x
        (by show (fsGet? fs routesPathI18n).isSome = true; rw [hg]; rfl)

theorem genStepBase_fst (layout : PageLayout) (isI18n : Bool) (acc : FS × List String)
    (q : String) :
    (genStepBase layout isI18n acc q).1
      = (if !isI18n then
          addBaseRouteEntry (fsWrite acc.1 (pagePath q) (generatePageTemplate q layout)) q
        else fsWrite acc.1 (pagePath q) (generatePageTemplate q layout)) := rfl

theorem genStepI18n_fst (layout : PageLayout) (acc : FS × List String) (q : String) :
    (genStepI18n layout acc q).1
      = addI18nRouteEntry
          (fsWrite acc.1 (langPagePath (toRouteId q)) (generateI18nPageTemplate q layout)) q := rfl

/-- Membership after one iteration of the first page loop: the written page
path, or whatever was already there. -/
theorem genStepBase_has_iff (layout : PageLayout) (isI18n : Bool) (acc : FS × List String)
    (q x : String) :
    fsHas (genStepBase layout isI18n acc q).1 x = true
      ↔ x = pagePath q ∨ fsHas acc.1 x = true := by
  rw [genStepBase_fst]
  by_cases hi : (!isI18n) = true
  · rw [if_pos hi, addBaseRouteEntry_dom]
    exact fsHas_write _ _ _ _
  · rw [if_neg hi]
    exact fsHas_write _ _ _ _

/-- Membership after one iteration of the i18n page loop. -/
theorem genStepI18n_has_iff (layout : PageLayout) (acc : FS × List String) (q x : String) :
    fsHas (genStepI18n layout acc q).1 x = true
      ↔ x = langPagePath (toRouteId q) ∨ fsHas acc.1 x = true := by
  rw [genStepI18n_fst, addI18nRouteEntry_dom]
  exact fsHas_write _ _ _ _

theorem generatePages_has_mono (fs : FS) (pages : List String) (layout : PageLayout)
    (isI18n : Bool) (x : String) (h : fsHas fs x = true) :
    fsHas (generatePages fs pages layout isI18n).1 x = true := by
  unfold generatePages
  by_cases he : pages.isEmpty = true
  · rw [if_pos he]
    exact h
  · rw [if_neg he]
    have h1 : fsHas ((pages.foldl (genStepBase layout isI18n) (fs, [])).1) x = true :=
      foldl_pres (fun acc : FS × List String => fsHas acc.1 x = true)
        (genStepBase layout isI18n)
        (fun acc q hq => (genStepBase_has_iff layout isI18n acc q x).mpr (Or.inr hq))
        pages (fs, []) h
    by_cases hi : isI18n = true
    · rw [if_pos hi]
      exact foldl_pres (fun acc : FS × List String => fsHas acc.1 x = true)
        (genStepI18n layout)
        (fun acc q hq => (genStepI18n_has_iff layout acc q x).mpr (Or.inr hq))
        pages _ h1
    · rw [if_neg hi]
      exact h1

/-- Membership after a page-generation loop comes from a generated path or
from the initial tree. -/
theorem foldGen_has_rev (step : FS × List String → String → FS × List String)
    (P : String → String → Prop)
    (hstep : ∀ acc q x, fsHas (step acc q).1 x = true → P q x ∨ fsHas acc.1 x = true) :
    ∀ (pages : List String) (acc : FS × List String) (x : String),
      fsHas (pages.foldl step acc).1 x = true →
      (∃ q ∈ pages, P q x) ∨ fsHas acc.1 x = true := by
  intro pages
  induction pages with
  | nil => intro acc x hx; exact Or.inr hx
  | cons q qs ih =>
    intro acc x hx
    rw [List.foldl_cons] at hx
    rcases ih (step acc q) x hx with h | h
    · obtain ⟨q', hq', hp⟩ := h
      exact Or.inl ⟨q', List.mem_cons_of_mem q hq', hp⟩
    · rcases hstep acc q x h with h2 | h2
      · exact Or.inl ⟨q, List.mem_cons_self q qs, h2⟩
      · exact Or.inr h2

theorem generatePages_has_new (fs : FS) (pages : List String) (layout : PageLayout)
    (isI18n : Bool) (x : String)
    (hx : fsHas (generatePages fs pages layout isI18n).1 x = true) :
    fsHas fs x = true ∨ ∃ p ∈ pages, x = pagePath p ∨ x = langPagePath (toRouteId p) := by
  unfold generatePages at hx
  by_cases he : pages.isEmpty = true
  · rw [if_pos he] at hx
    exact Or.inl hx
  · rw [if_neg he] at hx
    by_cases hi : isI18n = true
    · rw [if_pos hi] at hx
      rcases foldGen_has_rev (genStepI18n layout)
        (fun q y => y = langPagePath (toRouteId q))
        (fun acc q y hy => (genStepI18n_has_iff layout acc q y).mp hy)
        pages _ x hx with h | h
      · obtain ⟨q, hq, hp⟩ := h
        exact Or.inr ⟨q, hq, Or.inr hp⟩
      · rcases foldGen_has_rev (genStepBase layout isI18n)
          (fun q y => y = pagePath q)
          (fun acc q y hy => (genStepBase_has_iff layout isI18n acc q y).mp hy)
          pages (fs, []) x h with h2 | h2
        · obtain ⟨q, hq, hp⟩ := h2
          exact Or.inr ⟨q, hq, Or.inl hp⟩
        · exact Or.inl h2
    · rw [if_neg hi] at hx
      rcases foldGen_has_rev (genStepBase layout isI18n)
        (fun q y => y = pagePath q)
        (fun acc q y hy => (genStepBase_has_iff layout isI18n acc q y).mp hy)
        pages (fs, []) x hx with h2 | h2
      · obtain ⟨q, hq, hp⟩ := h2
        exact Or.inr ⟨q, hq, Or.inl hp⟩
      · exact Or.inl h2

theorem removeItems_keeps (fs : FS) (items : List String) (p : String)
    (h : items.any (fun it => pathUnder it p) = false) :
    fsHas (removeItems fs items) p = fsHas fs p := by
  show (fsGet? (removeItems fs items) p).isSome = _
  rw [removeItems_get, if_neg (fun hc => Bool.noConfusion (h ▸ hc))]
  rfl

theorem removeItems_removes (fs : FS) (items : List String) (p : String)
    (h : items.any (fun it => pathUnder it p) = true) :
    fsHas (removeItems fs items) p = false := by
  show (fsGet? (removeItems fs items) p).isSome = false
  rw [removeItems_get, if_pos h]
  rfl

theorem createContentDirs_mono (fs : FS) (x : String) (h : fsHas fs x = true) :
    fsHas (createContentDirectories fs) x = true := by
  unfold createContentDirectories
  by_cases hc : (fs.any (fun e => leadsWith ("src/content/blog/".data) e.1.data)) = true
  · rw [if_pos hc]
    exact h
  · rw [if_neg hc]
    exact (fsHas_write _ _ _ _).mpr (Or.inr h)

theorem createContentDirs_rev (fs : FS) (x : String)
    (h : fsHas (createContentDirectories fs) x = true) :
    fsHas fs x = true ∨ x = "src/content/blog/.gitkeep" := by
  unfold createContentDirectories at h
  by_cases hc : (fs.any (fun e => leadsWith ("src/content/blog/".data) e.1.data)) = true
  · rw [if_pos hc] at h
    exact Or.inl h
  · rw [if_neg hc] at h
    rcases (fsHas_write _ _ _ _).mp h with he | he
    · exact Or.inr he
    · exact Or.inl he

theorem step3_i18n (ov : FS) (opts : ScaffoldOpts) (t2 : FS) (hi : opts.i18n = true) :
    scaffoldStep3 ov opts t2 = copyTemplateFiles ov t2 := by
  unfold scaffoldStep3
  rw [if_pos hi]

theorem step4_demo (base : FS) (opts : ScaffoldOpts) (t3 : FS) (hd : opts.demo = true) :
    scaffoldStep4 base opts t3 = t3 := by
  unfold scaffoldStep4
  rw [if_neg (show ¬ (!opts.demo) = true by rw [hd]; exact fun hc => Bool.noConfusion hc)]

theorem step4_noDemo (base : FS) (opts : ScaffoldOpts) (t3 : FS) (hd : opts.demo = false) :
    scaffoldStep4 base opts t3
      = createContentDirectories (copyTemplateFiles base (removeItems t3 DEMO_CONTENT)) := by
  unfold scaffoldStep4
  rw [if_pos (show (!opts.demo) = true by rw [hd]; rfl)]

theorem step5_has_mono (opts : ScaffoldOpts) (t4 : FS) (x : String)
    (h : fsHas t4 x = true) : fsHas (scaffoldStep5 opts t4).1 x = true := by
  unfold scaffoldStep5
  by_cases hp : opts.pages.length > 0
  · rw [if_pos hp]
    exact generatePages_has_mono t4 opts.pages opts.pageLayout opts.i18n x h
  · rw [if_neg hp]
    exact h

theorem step5_has_rev (opts : ScaffoldOpts) (t4 : FS) (x : String)
    (h : fsHas (scaffoldStep5 opts t4).1 x = true) :
    fsHas t4 x = true
    ∨ ∃ p ∈ opts.pages, x = pagePath p ∨ x = langPagePath (toRouteId p) := by
  unfold scaffoldStep5 at h
  by_cases hp : opts.pages.length > 0
  · rw [if_pos hp] at h
    exact generatePages_has_new t4 opts.pages opts.pageLayout opts.i18n x h
  · rw [if_neg hp] at h
    exact Or.inl h

theorem applySel_ok (fs : FS) (sel : ComponentSelection) (fetch : FetchOutcome) :
    ∃ t, applyComponentSelection fs sel fetch = Except.ok t := by
  unfold applyComponentSelection
  cases sel.mode with
  | none => exact ⟨_, rfl⟩
  | all => exact ⟨_, rfl⟩
  | categories =>
    cases fetch with
    | unavailable => exact ⟨_, rfl⟩
    | ok reg => exact ⟨_, rfl⟩
  | individual =>
    cases fetch with
    | unavailable => exact ⟨_, rfl⟩
    | ok reg => exact ⟨_, rfl⟩

/-- Inversion of a successful pipeline run: the output is `scaffoldRest`
applied to some tree produced by the selection stage. -/
theorem scaffoldPipeline_ok (template i18nOv base : FS) (opts : ScaffoldOpts)
    (fetch : FetchOutcome) (out : FS × List String)
    (h : scaffoldPipeline template i18nOv base opts fetch = Except.ok out) :
    ∃ t2, out = scaffoldRest i18nOv base opts t2 := by
  unfold scaffoldPipeline at h
  have h' : (match (if opts.componentSelection.mode ≠ ComponentSelectionMode.all then
        applyComponentSelection (removeItems template CLEANUP_ITEMS) opts.componentSelection fetch
      else Except.ok (removeItems template CLEANUP_ITEMS)) with
      | Except.error e => Except.error e
      | Except.ok t2 => Except.ok (scaffoldRest i18nOv base opts t2)) = Except.ok out := h
  cases hsel : (if opts.componentSelection.mode ≠ ComponentSelectionMode.all then
      applyComponentSelection (removeItems template CLEANUP_ITEMS) opts.componentSelection fetch
    else Except.ok (removeItems template CLEANUP_ITEMS)) with
  | error e =>
    rw [hsel] at h'
    exact Except.noConfusion h'
  | ok t2 =>
    rw [hsel] at h'
    exact ⟨t2, (Except.ok.inj h').symm⟩

/-! ## Demo-page path lemmas (toward claim C1) -/

/-- The page files of the demo-content removal list (the non-page entries of
`DEMO_CONTENT` are component, layout and content directories). -/
def DEMO_PAGE_FILES : List String :=
  [ "src/pages/index.astro"
  , "src/pages/about.astro"
  , "src/pages/contact.astro"
  , "src/pages/components.astro"
  , "src/pages/[lang]/index.astro"
  , "src/pages/[lang]/[...about].astro"
  , "src/pages/[lang]/[...contact].astro"
  , "src/pages/[lang]/[...components].astro" ]

/-- The page slugs whose generated files coincide with demo page files. -/
def demoPageSlugs : List String := ["index", "about", "contact", "components"]

theorem stringDataEq {p q : String} (h : p.data = q.data) : p = q := by
  cases p
  cases q
  exact congrArg String.mk h

theorem pagePath_inj (p q : String) (h : pagePath p = pagePath q) : p = q := by
  have hd := congrArg String.data h
  rw [pagePath_data, pagePath_data] at hd
  have h1 : p.data ++ ".astro".data = q.data ++ ".astro".data := by
    rw [List.append_assoc, List.append_assoc] at hd
    exact List.append_cancel_left hd
  exact stringDataEq (List.append_cancel_right h1)

theorem langPagePath_data (r : String) :
    (langPagePath r).data = ("src/pages/[lang]/[...".data ++ r.data) ++ "].astro".data := rfl

theorem langPagePath_inj (r q : String) (h : langPagePath r = langPagePath q) : r = q := by
  have hd := congrArg String.data h
  rw [langPagePath_data, langPagePath_data] at hd
  have h1 : r.data ++ "].astro".data = q.data ++ "].astro".data := by
    rw [List.append_assoc, List.append_assoc] at hd
    exact List.append_cancel_left hd
  exact stringDataEq (List.append_cancel_right h1)

theorem langPagePath_getElem10 (r : String) :
    (langPagePath r).data[10]? = some '[' := by
  rw [langPagePath_data]
  rw [List.getElem?_append_left (by
    rw [List.length_append]
    have hl : ("src/pages/[lang]/[...".data).length = 21 := by decide
    omega)]
  rw [List.getElem?_append_left (by decide)]
  decide

theorem langPagePath_getElem17 (r : String) :
    (langPagePath r).data[17]? = some '[' := by
  rw [langPagePath_data]
  rw [List.getElem?_append_left (by
    rw [List.length_append]
    have hl : ("src/pages/[lang]/[...".data).length = 21 := by decide
    omega)]
  rw [List.getElem?_append_left (by decide)]
  decide

theorem pagePath_getElem10 (p : String) (c0 : Char) (h : p.data.head? = some c0) :
    (pagePath p).data[10]? = some c0 := by
  rw [pagePath_data, List.append_assoc]
  rw [List.getElem?_append_right (by decide)]
  cases hpd : p.data with
  | nil =>
    rw [hpd] at h
    exact Option.noConfusion h
  | cons a t =>
    rw [hpd] at h
    have ha : a = c0 := by injection h
    subst ha
    rw [show 10 - ("src/pages/".data).length = 0 from by decide]
    simp

theorem toRouteId_eq_no_underscore : ∀ (pd target : List Char),
    pd.map (fun c => if c = '-' then '_' else c) = target →
    (∀ c ∈ target, c ≠ '_') → pd = target
  | [], [], _, _ => rfl
  | [], _ :: _, h, _ => List.noConfusion h
  | _ :: _, [], h, _ => List.noConfusion h
  | c :: cs, t :: ts, h, hall => by
    rw [List.map_cons] at h
    injection h with h1 h2
    have hc : c = t := by
      by_cases hcd : c = '-'
      · rw [if_pos hcd] at h1
        exact absurd h1 (fun he => hall t (List.mem_cons_self t ts) he.symm)
      · rw [if_neg hcd] at h1
        exact h1
    rw [hc, toRouteId_eq_no_underscore cs ts h2
      (fun d hd => hall d (List.mem_cons_of_mem t hd))]

theorem toRouteId_eq (p slug : String) (h : toRouteId p = slug)
    (hs : ∀ c ∈ slug.data, c ≠ '_') : p = slug := by
  have hd : p.data.map (fun c => if c = '-' then '_' else c) = slug.data :=
    congrArg String.data h
  exact stringDataEq (toRouteId_eq_no_underscore p.data slug.data hd hs)

theorem ne_pagePath_of_slug (f slug p : String) (hfp : f = pagePath slug)
    (hne2 : p ≠ slug) : f ≠ pagePath p := by
  intro he
  rw [hfp] at he
  exact hne2 (pagePath_inj slug p he).symm

theorem ne_lang_of_10 (f : String) (hf10 : f.data[10]? ≠ some '[') (r : String) :
    f ≠ langPagePath r := by
  intro he
  have h10 := langPagePath_getElem10 r
  rw [← he] at h10
  exact hf10 h10

theorem ne_lang_of_17 (f : String) (hf17 : f.data[17]? ≠ some '[') (r : String) :
    f ≠ langPagePath r := by
  intro he
  have h17 := langPagePath_getElem17 r
  rw [← he] at h17
  exact hf17 h17

theorem ne_pagePath_of_bracket (f p : String) (hf10 : f.data[10]? = some '[')
    (hall : ∀ c ∈ p.data, isSlugChar c = true) (hne : p ≠ "") :
    f ≠ pagePath p := by
  obtain ⟨c0, t0, hpd⟩ : ∃ c t, p.data = c :: t := by
    cases hc : p.data with
    | nil => exact absurd (stringDataEq hc) hne
    | cons c t => exact ⟨c, t, rfl⟩
  intro he
  have hpp := pagePath_getElem10 p c0 (by rw [hpd]; rfl)
  rw [← he] at hpp
  have heq : some '[' = some c0 := hf10.symm.trans hpp
  have hbr : ('[' : Char) = c0 := by injection heq
  have hc0slug : isSlugChar c0 = true :=
    hall c0 (by rw [hpd]; exact List.mem_cons_self _ _)
  rw [← hbr] at hc0slug
  exact absurd hc0slug (by decide)

theorem ne_lang_of_slug (f slug p : String) (hfl : f = langPagePath slug)
    (hs : ∀ c ∈ slug.data, c ≠ '_') (hne2 : p ≠ slug) :
    f ≠ langPagePath (toRouteId p) := by
  intro he
  rw [hfl] at he
  have h1 : slug = toRouteId p := langPagePath_inj slug (toRouteId p) he
  exact hne2 (toRouteId_eq p slug h1.symm hs)

/-- A sanitizer-valid page name that is not a demo page slug regenerates
none of the demo page files. -/
theorem pages_no_demo_path (p : String)
    (hall : ∀ c ∈ p.data, isSlugChar c = true) (hne : p ≠ "")
    (hslug : p ∉ demoPageSlugs) :
    ∀ f ∈ DEMO_PAGE_FILES, f ≠ pagePath p ∧ f ≠ langPagePath (toRouteId p) := by
  intro f hf
  have hpne : ∀ s : String, s ∈ demoPageSlugs → p ≠ s :=
    fun s hs he => hslug (he ▸ hs)
  simp only [DEMO_PAGE_FILES, List.mem_cons, List.not_mem_nil, or_false] at hf
  rcases hf with hf | hf | hf | hf | hf | hf | hf | hf <;> subst hf
  · exact ⟨ne_pagePath_of_slug _ "index" p rfl (hpne "index" (by decide))
          , ne_lang_of_10 _ (by decide) _⟩
  · exact ⟨ne_pagePath_of_slug _ "about" p rfl (hpne "about" (by decide))
          , ne_lang_of_10 _ (by decide) _⟩
  · exact ⟨ne_pagePath_of_slug _ "contact" p rfl (hpne "contact" (by decide))
          , ne_lang_of_10 _ (by decide) _⟩
  · exact ⟨ne_pagePath_of_slug _ "components" p rfl (hpne "components" (by decide))
          , ne_lang_of_10 _ (by decide) _⟩
  · exact ⟨ne_pagePath_of_bracket _ p (by decide) hall hne
          , ne_lang_of_17 _ (by decide) _⟩
  · exact ⟨ne_pagePath_of_bracket _ p (by decide) hall hne
          , ne_lang_of_slug _ "about" p rfl (by decide) (hpne "about" (by decide))⟩
  · exact ⟨ne_pagePath_of_bracket _ p (by decide) hall hne
          , ne_lang_of_slug _ "contact" p rfl (by decide) (hpne "contact" (by decide))⟩
  · exact ⟨ne_pagePath_of_bracket _ p (by decide) hall hne
          , ne_lang_of_slug _ "components" p rfl (by decide) (hpne "components" (by decide))⟩

/-! ## Claim C1: overlay ordering -/

/-- A concrete downloaded template tree carrying a demo page. -/
def c1Template : FS :=
  [("package.json", "pkg"), ("src/pages/about.astro", "demo about page")]

/-- A concrete i18n overlay tree carrying a localized demo page and the
localized routing scaffold. -/
def c1Overlay : FS :=
  [ ("src/i18n/config.ts", "i18n config")
  , ("src/pages/[lang]/index.astro", "localized index") ]

/-- The counterexample options: demo declined, i18n enabled and a starter
page named `about` requested. -/
def c1Opts : ScaffoldOpts :=
  { projectName := "site", targetDir := "site", demo := false
  , componentSelection :=
      { mode := ComponentSelectionMode.all
      , categories := Option.none, components := Option.none }
  , i18n := true, pages := ["about"], pageLayout := PageLayout.page
  , packageManager := PackageManager.pnpm }

def c1Run : Except String (FS × List String) :=
  scaffoldPipeline c1Template c1Overlay [] c1Opts FetchOutcome.unavailable

/-- C1 counterexample: a composition run with demo=false and i18n=true whose
base template carries no demo page file nevertheless ends with the demo page
files src/pages/about.astro and src/pages/[lang]/[...about].astro present,
because the run requests a starter page named `about` — refuting the claim
that after every such run none of the demo page files exist. -/
theorem c1_counterexample :
    (match c1Run with
     | Except.ok out =>
        fsHas out.1 "src/pages/about.astro"
          && fsHas out.1 "src/pages/[lang]/[...about].astro"
     | Except.error _ => false) = true := by decide

/-- C1 (amended): in every composition run with i18n enabled, when demo is
kept every file of the i18n overlay (in particular every localized demo
page) is present after the pipeline; when demo is declined — provided the
requested page names are sanitizer-valid slugs none of which is a demo page
slug, and the minimal base template carries no demo page file — none of the
demo page files are present, while every i18n-overlay file outside the
demo-content set (in particular the localized routing scaffold) is present.
The i18n overlay is applied before demo removal, which is what makes both
parts hold of one fixed ordering. -/
theorem c1_theorem :
    (∀ (template i18nOv base : FS) (opts : ScaffoldOpts) (fetch : FetchOutcome)
        (out : FS × List String),
      opts.demo = true → opts.i18n = true →
      scaffoldPipeline template i18nOv base opts fetch = Except.ok out →
      ∀ f, fsHas i18nOv f = true → fsHas out.1 f = true)
    ∧ (∀ (template i18nOv base : FS) (opts : ScaffoldOpts) (fetch : FetchOutcome)
        (out : FS × List String),
      opts.demo = false → opts.i18n = true →
      (∀ p ∈ opts.pages,
        (∀ c ∈ p.data, isSlugChar c = true) ∧ p ≠ "" ∧ p ∉ demoPageSlugs) →
      (∀ f ∈ DEMO_PAGE_FILES, fsHas base f = false) →
      scaffoldPipeline template i18nOv base opts fetch = Except.ok out →
      (∀ f ∈ DEMO_PAGE_FILES, fsHas out.1 f = false)
      ∧ (∀ f, fsHas i18nOv f = true →
          DEMO_CONTENT.any (fun it => pathUnder it f) = false →
          fsHas out.1 f = true)) := by
  constructor
  · intro template i18nOv base opts fetch out hd hi hrun f hf
    obtain ⟨t2, ho⟩ := scaffoldPipeline_ok template i18nOv base opts fetch out hrun
    subst ho
    unfold scaffoldRest
    rw [step3_i18n i18nOv opts t2 hi, step4_demo base opts _ hd]
    exact step5_has_mono opts _ f ((copyTemplateFiles_has i18nOv t2 f).mpr (Or.inl hf))
  · intro template i18nOv base opts fetch out hd hi hpages hbase hrun
    obtain ⟨t2, ho⟩ := scaffoldPipeline_ok template i18nOv base opts fetch out hrun
    subst ho
    unfold scaffoldRest
    rw [step3_i18n i18nOv opts t2 hi, step4_noDemo base opts _ hd]
    have hany : ∀ g ∈ DEMO_PAGE_FILES,
        DEMO_CONTENT.any (fun it => pathUnder it g) = true := by decide
    have hgitkeep : ∀ g ∈ DEMO_PAGE_FILES, g ≠ "src/content/blog/.gitkeep" := by decide
    constructor
    · intro f hf
      have hrem : fsHas (removeItems (copyTemplateFiles i18nOv t2) DEMO_CONTENT) f = false :=
        removeItems_removes _ _ f (hany f hf)
      have hcopy : fsHas (copyTemplateFiles base
          (removeItems (copyTemplateFiles i18nOv t2) DEMO_CONTENT)) f = false := by
        apply Bool.of_not_eq_true
        intro hc
        rcases (copyTemplateFiles_has base _ f).mp hc with h1 | h1
        · rw [hbase f hf] at h1
          exact Bool.noConfusion h1
        · rw [hrem] at h1
          exact Bool.noConfusion h1
      have hccd : fsHas (createContentDirectories (copyTemplateFiles base
          (removeItems (copyTemplateFiles i18nOv t2) DEMO_CONTENT))) f = false := by
        apply Bool.of_not_eq_true
        intro hc
        rcases createContentDirs_rev _ f hc with h1 | h1
        · rw [hcopy] at h1
          exact Bool.noConfusion h1
        · exact hgitkeep f hf h1
      apply Bool.of_not_eq_true
      intro hc
      rcases step5_has_rev opts _ f hc with h1 | h1
      · rw [hccd] at h1
        exact Bool.noConfusion h1
      · obtain ⟨q, hq, hqp⟩ := h1
        obtain ⟨hall, hne, hns⟩ := hpages q hq
        have hnp := pages_no_demo_path q hall hne hns f hf
        rcases hqp with hqp | hqp
        · exact hnp.1 hqp
        · exact hnp.2 hqp
    · intro f hf hnd
      have h3 : fsHas (copyTemplateFiles i18nOv t2) f = true :=
        (copyTemplateFiles_has i18nOv t2 f).mpr (Or.inl hf)
      have h4 : fsHas (removeItems (copyTemplateFiles i18nOv t2) DEMO_CONTENT) f = true := by
        rw [removeItems_keeps _ DEMO_CONTENT f hnd]
        exact h3
      exact step5_has_mono opts _ f (createContentDirs_mono _ f
        ((copyTemplateFiles_has base _ f).mpr (Or.inr h4)))

/-- The witness options for the amended claim's demo-declined part: a
sanitizer-valid page name that is not a demo slug. -/
def c1WOpts : ScaffoldOpts :=
  { projectName := "site", targetDir := "site", demo := false
  , componentSelection :=
      { mode := ComponentSelectionMode.all
      , categories := Option.none, components := Option.none }
  , i18n := true, pages := ["team"], pageLayout := PageLayout.page
  , packageManager := PackageManager.pnpm }

/-- The witness options for the demo-kept part. -/
def c1WOptsDemo : ScaffoldOpts :=
  { projectName := "site", targetDir := "site", demo := true
  , componentSelection :=
      { mode := ComponentSelectionMode.all
      , categories := Option.none, components := Option.none }
  , i18n := true, pages := [], pageLayout := PageLayout.page
  , packageManager := PackageManager.pnpm }

def runOr (r : Except String (FS × List String)) : FS × List String :=
  match r with
  | Except.ok out => out
  | Except.error _ => ([], [])

/-- C1 witness: the amended theorem applied to concrete runs — with demo
kept the localized demo page from the overlay survives; with demo declined
the demo page stays absent while the overlay's routing scaffold survives. -/
theorem c1_witness :
    fsHas (runOr (scaffoldPipeline c1Template c1Overlay [] c1WOptsDemo
        FetchOutcome.unavailable)).1 "src/pages/[lang]/index.astro" = true
    ∧ fsHas (runOr (scaffoldPipeline c1Template c1Overlay [] c1WOpts
        FetchOutcome.unavailable)).1 "src/pages/about.astro" = false
    ∧ fsHas (runOr (scaffoldPipeline c1Template c1Overlay [] c1WOpts
        FetchOutcome.unavailable)).1 "src/i18n/config.ts" = true :=
  ⟨ c1_theorem.1 c1Template c1Overlay [] c1WOptsDemo FetchOutcome.unavailable _
      rfl rfl rfl "src/pages/[lang]/index.astro" (by decide)
  , (c1_theorem.2 c1Template c1Overlay [] c1WOpts FetchOutcome.unavailable _
      rfl rfl (by decide) (by decide) rfl).1 "src/pages/about.astro" (by decide)
  , (c1_theorem.2 c1Template c1Overlay [] c1WOpts FetchOutcome.unavailable _
      rfl rfl (by decide) (by decide) rfl).2 "src/i18n/config.ts" (by decide) (by decide)⟩
